import Mathlib

/-!
Shallow embedding of the ZotLink core (src/zotlink/pdf_fetcher.py and
src/zotlink/zotero_integration.py) and proofs about the claims of the
specification.

Conventions of the embedding:
* Byte strings (PDF payloads, HTTP bodies) are `List Nat`, one entry per byte.
* Python `str` values that only flow through equality tests, slicing and
  ASCII-level normalisation are Lean `String`s; `str.lower()` is modelled on
  the ASCII range (`Char.toLower`), which is exact for every literal the code
  compares against.
* The SQLite database that Zotero owns is modelled as a record of row lists,
  one list per table, in rowid (insertion) order.  A `SELECT ... fetchone()`
  is `List.find?` (first row in order), `DELETE ... WHERE` is `List.filter`,
  `UPDATE ... WHERE` is `List.map`, `INSERT` appends, and `MAX(col)` is a
  fold with default 0 (SQLite returns NULL on an empty table and the code
  maps it to 0 with `or 0`).
* Network calls are parameters: each fetch strategy of `fetch_pdf` receives
  the HTTP response it would observe, and the dispatch loop receives a map
  from source name to the strategy outcome.
* Environmental guards (`is_running`, database-path discovery) are outside
  the relational semantics; the embedding models the code path on which they
  succeed, which is the path every claim speaks about.
-/

set_option maxRecDepth 6000

namespace ZotLink

/-! ## Generic byte-list helpers -/

/-- Does the second list start with the first one (Python `startswith`)? -/
def leadsWith : List Nat → List Nat → Bool
  | [], _ => true
  | _ :: _, [] => false
  | p :: ps, b :: bs => p == b && leadsWith ps bs

/-- Does `pat` occur contiguously anywhere in the list (Python `in`)? -/
def occursIn (pat : List Nat) : List Nat → Bool
  | [] => leadsWith pat []
  | s@(_ :: rest) => leadsWith pat s || occursIn pat rest

/-- The code points of a string as naturals. -/
def strBytes (s : String) : List Nat := s.data.map Char.toNat

/-- Python `str.strip()` on a character list: drop ASCII whitespace from
both ends. -/
def isPyWsChar (c : Char) : Bool :=
  c = ' ' ∨ c = '\t' ∨ c = '\n' ∨ c = '\r' ∨ c = '\x0b' ∨ c = '\x0c'

/-- Strip whitespace from both ends of a character list. -/
def trimChars (l : List Char) : List Char :=
  ((l.dropWhile isPyWsChar).reverse.dropWhile isPyWsChar).reverse

/-- Python `str.strip()`. -/
def pyStrip (s : String) : String := String.mk (trimChars s.data)

/-- Python `s[:n]` on a string. -/
def strTake (s : String) (n : Nat) : String := String.mk (s.data.take n)

/-- ASCII lowering of a byte / code point, mirroring `str.lower()` on the
ASCII range (every token the code searches for is ASCII). -/
def lowerByte (b : Nat) : Nat := if 65 ≤ b ∧ b ≤ 90 then b + 32 else b

/-- Lower an entire byte list. -/
def lowerBytes (l : List Nat) : List Nat := l.map lowerByte

/-- Is a byte a valid UTF-8 continuation byte (0x80 - 0xBF)? -/
def utf8Cont (b : Nat) : Bool := 128 ≤ b && b ≤ 191

/-- UTF-8 decoding with Python semantics `errors="ignore"`: invalid
sequences are dropped (maximal valid subpart skipped) and decoding resumes
at the next byte.  Returns the decoded code points. -/
def utf8First (b c1 : Nat) : Bool :=
  if b == 224 then 160 ≤ c1 && c1 ≤ 191
  else if b == 237 then 128 ≤ c1 && c1 ≤ 159
  else if b == 240 then 144 ≤ c1 && c1 ≤ 191
  else if b == 244 then 128 ≤ c1 && c1 ≤ 143
  else utf8Cont c1

/-- Fuel-indexed UTF-8 decoding with Python semantics `errors="ignore"`:
invalid sequences are dropped (the maximal valid subpart is skipped) and
decoding resumes at the next byte.  Every step consumes at least one byte,
so fuel equal to the list length suffices. -/
def decodeIgnoreAux : Nat → List Nat → List Nat
  | 0, _ => []
  | _, [] => []
  | fuel + 1, b :: rest =>
    if b < 128 then b :: decodeIgnoreAux fuel rest
    else if b < 194 then decodeIgnoreAux fuel rest
    else if b ≤ 223 then
      match rest with
      | [] => []
      | c1 :: r1 =>
        if utf8Cont c1 then
          ((b - 192) * 64 + (c1 - 128)) :: decodeIgnoreAux fuel r1
        else decodeIgnoreAux fuel (c1 :: r1)
    else if b ≤ 239 then
      match rest with
      | [] => []
      | c1 :: r1 =>
        if utf8First b c1 then
          match r1 with
          | [] => []
          | c2 :: r2 =>
            if utf8Cont c2 then
              ((b - 224) * 4096 + (c1 - 128) * 64 + (c2 - 128)) ::
                decodeIgnoreAux fuel r2
            else decodeIgnoreAux fuel (c2 :: r2)
        else decodeIgnoreAux fuel (c1 :: r1)
    else if b ≤ 244 then
      match rest with
      | [] => []
      | c1 :: r1 =>
        if utf8First b c1 then
          match r1 with
          | [] => []
          | c2 :: r2 =>
            if utf8Cont c2 then
              match r2 with
              | [] => []
              | c3 :: r3 =>
                if utf8Cont c3 then
                  ((b - 240) * 262144 + (c1 - 128) * 4096 + (c2 - 128) * 64 +
                    (c3 - 128)) :: decodeIgnoreAux fuel r3
                else decodeIgnoreAux fuel (c3 :: r3)
            else decodeIgnoreAux fuel (c2 :: r2)
        else decodeIgnoreAux fuel (c1 :: r1)
    else decodeIgnoreAux fuel rest

/-- UTF-8 decoding of a byte list with `errors="ignore"`. -/
def decodeIgnore (l : List Nat) : List Nat := decodeIgnoreAux l.length l

/-- Python `data[-n:]`. -/
def lastSlice (n : Nat) (l : List Nat) : List Nat := l.drop (l.length - n)

/-! ## ContentValidator: `_validate_pdf_content` (zotero_integration.py 1928-2025) -/

/-- The distinct rejection reasons of `_validate_pdf_content`, one per early
`return` of the source, in source order. -/
inductive VReason
  | tooSmall
  | badContentType
  | noMagic
  | htmlContent
  | natureTooSmall
  | noEof
  | accepted
  deriving DecidableEq, Repr

/-- Result record of the validator: the `is_valid` flag and which rule fired. -/
structure VResult where
  is_valid : Bool
  reason : VReason
  deriving DecidableEq, Repr

/-- The PDF magic bytes `%PDF`. -/
def pdfMagic : List Nat := strBytes "%PDF"

/-- The HTML indicator tokens of check 4, in source order. -/
def htmlIndicators : List (List Nat) :=
  [strBytes "<html", strBytes "<body", strBytes "<div",
   strBytes "<!doctype", strBytes "<title>"]

/-- Check 4 of the validator: decode the first 2048 bytes with
`errors="ignore"`, lower, and look for any HTML indicator token. -/
def htmlFound (pdfData : List Nat) : Bool :=
  let pdfText := lowerBytes (decodeIgnore (pdfData.take 2048))
  htmlIndicators.any (fun tok => occursIn tok pdfText)

/-- The code points of a string after `str.lower()` (ASCII lowering, which
agrees with every literal the code compares against). -/
def lowerStrBytes (s : String) : List Nat := lowerBytes (strBytes s)

/-- `_validate_pdf_content(pdf_data, headers, pdf_url)`.  `contentTypeHeader`
is `headers.get("Content-Type", "")`; the code lowercases it before use
(`content_type` in the source), and the URL is lowercased for the Nature
check. -/
def validate_pdf_content (pdfData : List Nat) (contentTypeHeader : String)
    (pdfUrl : String) : VResult :=
  -- check 1: minimum size
  if pdfData.length < 1024 then ⟨false, .tooSmall⟩
  -- check 2: declared content type (octet-stream tolerated)
  else if lowerStrBytes contentTypeHeader ≠ [] ∧
      ¬ occursIn (strBytes "pdf") (lowerStrBytes contentTypeHeader) ∧
      lowerStrBytes contentTypeHeader ≠ strBytes "application/octet-stream" then
    ⟨false, .badContentType⟩
  -- check 3: PDF magic bytes
  else if ¬ leadsWith pdfMagic pdfData then ⟨false, .noMagic⟩
  -- check 4: disguised HTML
  else if htmlFound pdfData then ⟨false, .htmlContent⟩
  -- check 5: Nature-specific minimum size
  else if occursIn (strBytes "nature.com") (lowerStrBytes pdfUrl) ∧
      pdfData.length < 500000 then
    ⟨false, .natureTooSmall⟩
  -- check 6: trailing EOF marker within the final 1KB
  else if ¬ occursIn (strBytes "%%EOF") (lastSlice 1024 pdfData) then
    ⟨false, .noEof⟩
  else ⟨true, .accepted⟩

/-! ## SourceResolver: `_get_source_order` (pdf_fetcher.py 137-146) -/

/-- The default provider list `all_sources` of `_get_source_order`. -/
def all_sources : List String :=
  ["arxiv", "mdpi", "open_access", "scihub", "annas_archive", "libgen", "publisher"]

/-- `_get_source_order(source)`: `auto` gives the default list, a known
source is moved to the head with the rest kept in default order, anything
else falls back to the default list. -/
def get_source_order (source : String) : List String :=
  if source = "auto" then all_sources
  else if source ∈ all_sources then
    source :: all_sources.filter (fun s => s ≠ source)
  else all_sources

/-! ## `_extract_arxiv_id` (pdf_fetcher.py 148-159) -/

/-- Take the maximal run of ASCII digits from the front of a character
list; mirrors a greedy regex digit class. -/
def digitRun (cs : List Char) : List Char × List Char :=
  match cs with
  | [] => ([], [])
  | c :: rest =>
    if c.isDigit then
      let (run, rem) := digitRun rest
      (c :: run, rem)
    else ([], cs)

/-- Match the regex suffix `[0-9]+\.[0-9]+` at the head of a character list
and return the matched text.  Backtracking cannot help this pattern, so the
greedy parse is exact. -/
def matchIdAt (cs : List Char) : Option String :=
  let (d1, rem1) := digitRun cs
  if d1 = [] then none
  else
    match rem1 with
    | '.' :: afterDot =>
      let (d2, _) := digitRun afterDot
      if d2 = [] then none
      else some (String.mk (d1 ++ ['.'] ++ d2))
    | _ => none

/-- Does the character list start with the given literal? -/
def charsLeadWith : List Char → List Char → Bool
  | [], _ => true
  | _ :: _, [] => false
  | p :: ps, c :: cs => p == c && charsLeadWith ps cs

/-- `re.search` of a pattern `LITERAL([0-9]+\.[0-9]+)`: scan left to right
for a position where the literal is followed by `digits.digits`, returning
the captured group of the leftmost match. -/
def searchLitId (lit : List Char) : List Char → Option String
  | [] => none
  | s@(_ :: rest) =>
    match (if charsLeadWith lit s then matchIdAt (s.drop lit.length) else none) with
    | some r => some r
    | none => searchLitId lit rest

/-- `_extract_arxiv_id(url)`: try the three regex patterns in order. -/
def extract_arxiv_id (url : String) : Option String :=
  match searchLitId "arxiv.org/abs/".data url.data with
  | some r => some r
  | none =>
    match searchLitId "arxiv.org/pdf/".data url.data with
    | some r => some r
    | none => searchLitId "arxiv:".data url.data

/-! ## Fetch strategies and the `fetch_pdf` dispatch loop (pdf_fetcher.py 43-135) -/

/-- The `item_info` record assembled at the top of `fetch_pdf`. -/
structure ItemInfo where
  key : String
  title : String
  doi : String
  url : String
  arxiv_id : Option String
  deriving DecidableEq, Repr

/-- `item_info` as `fetch_pdf` builds it from the stored item fields. -/
def mkItemInfo (key title doi url : String) : ItemInfo :=
  ⟨key, title, doi, url, extract_arxiv_id url⟩

/-- An HTTP response as a fetch strategy observes it. -/
structure HttpResp where
  status : Nat
  content : List Nat
  deriving DecidableEq, Repr

/-- The dictionary a fetch strategy returns on success.  Every strategy in
the source either returns such a success dictionary or `None`. -/
structure StratResult where
  success : Bool
  source : String
  content : List Nat
  url : String
  deriving DecidableEq, Repr

/-- `_fetch_from_arxiv(item_info)` given the HTTP response for the PDF URL:
requires an arXiv id (directly or extracted from an arxiv.org DOI), then
accepts the body iff the status is 200 and the body starts with `%PDF`. -/
def fetch_from_arxiv (info : ItemInfo) (resp : HttpResp) : Option StratResult :=
  let aid :=
    match info.arxiv_id with
    | some a => some a
    | none =>
      if occursIn (strBytes "arxiv.org") (lowerStrBytes info.doi) then
        extract_arxiv_id info.doi
      else none
  match aid with
  | none => none
  | some a =>
    if resp.status = 200 ∧ leadsWith pdfMagic resp.content then
      some ⟨true, "arXiv", resp.content, "https://arxiv.org/pdf/" ++ a ++ ".pdf"⟩
    else none

/-- Outcome of `fetch_pdf`.  The success dictionary of the source carries no
diagnostics; the failure dictionary carries the tried source list and the
collected non-`None` attempt dictionaries. -/
inductive FetchOutcome
  | ok (source : String) (size : Nat) (title : String) (content : List Nat)
  | fail (error : String) (item_key : String) (tried_sources : List String)
      (attempts : List StratResult)
  deriving DecidableEq, Repr

/-- The per-provider diagnostics a `fetch_pdf` result reports: the
`attempts` list of a failure; a success dictionary has no such field. -/
def reportedAttempts : FetchOutcome → Option (List StratResult)
  | .ok _ _ _ _ => none
  | .fail _ _ _ attempts => some attempts

/-- The `if src == ... elif ...` dispatch of the loop body: a name outside
the seven known providers leaves `fetch_result = None`. -/
def strategyFor (net : String → Option StratResult) (src : String) :
    Option StratResult :=
  if src = "arxiv" ∨ src = "mdpi" ∨ src = "open_access" ∨ src = "scihub" ∨
      src = "annas_archive" ∨ src = "libgen" ∨ src = "publisher" then
    net src
  else none

/-- The provider loop of `fetch_pdf`: first success dictionary wins and is
returned immediately; a non-`None` non-success dictionary is appended to
`all_results`; exhaustion returns the failure dictionary. -/
def fetch_pdf_loop (net : String → Option StratResult) (itemKey title : String)
    (sourcesOrder : List String) : List String → List StratResult → FetchOutcome
  | [], allResults =>
    .fail "Could not find PDF from any source" itemKey sourcesOrder allResults
  | src :: rest, allResults =>
    match strategyFor net src with
    | some r =>
      if r.success then .ok r.source r.content.length title r.content
      else fetch_pdf_loop net itemKey title sourcesOrder rest (allResults ++ [r])
    | none => fetch_pdf_loop net itemKey title sourcesOrder rest allResults

/-- `fetch_pdf(item_key, source)` for an item whose stored fields are those
of `info`, with the network behaviour of each strategy abstracted into
`net`.  (`save_to_zotero` only adds the attachment step to the success
dictionary; the attachment writer is modelled separately.) -/
def fetch_pdf (net : String → Option StratResult) (info : ItemInfo)
    (source : String) : FetchOutcome :=
  fetch_pdf_loop net info.key info.title (get_source_order source)
    (get_source_order source) []

/-! ## The relational store

Rows of the Zotero SQLite tables that the StoreAdapter touches, in rowid
(insertion) order. -/

/-- A row of `items`. -/
structure ItemRow where
  itemID : Nat
  itemTypeID : Nat
  libraryID : Nat
  key : String
  deriving DecidableEq, Repr

/-- A row of `itemData` (the ItemField link table). -/
structure ItemDataRow where
  itemID : Nat
  fieldID : Nat
  valueID : Nat
  deriving DecidableEq, Repr

/-- A row of `itemDataValues` (the FieldValue table). -/
structure ValueRow where
  valueID : Nat
  value : String
  deriving DecidableEq, Repr

/-- A row of `fields` (the field-name catalog). -/
structure FieldRow where
  fieldID : Nat
  fieldName : String
  deriving DecidableEq, Repr

/-- A row of `tags`. -/
structure TagRow where
  tagID : Nat
  name : String
  deriving DecidableEq, Repr

/-- A row of `itemTags`; `ttype` is the column named `type` (0 = manual). -/
structure ItemTagRow where
  itemID : Nat
  tagID : Nat
  ttype : Nat
  deriving DecidableEq, Repr

/-- A row of `itemCreators`. -/
structure ItemCreatorRow where
  itemID : Nat
  creatorID : Nat
  creatorTypeID : Nat
  deriving DecidableEq, Repr

/-- A row of `collections`. -/
structure CollectionRow where
  collectionID : Nat
  libraryID : Nat
  collectionKey : String
  deriving DecidableEq, Repr

/-- A row of `collectionItems`. -/
structure CollectionItemRow where
  collectionID : Nat
  itemID : Nat
  deriving DecidableEq, Repr

/-- A row of `itemAttachments`. -/
structure AttachmentRow where
  itemID : Nat
  parentItemID : Nat
  contentType : String
  filename : String
  deriving DecidableEq, Repr

/-- The store: one list per table the adapter touches. -/
@[ext]
structure DB where
  items : List ItemRow
  itemData : List ItemDataRow
  itemDataValues : List ValueRow
  fields : List FieldRow
  tags : List TagRow
  itemTags : List ItemTagRow
  itemCreators : List ItemCreatorRow
  collections : List CollectionRow
  collectionItems : List CollectionItemRow
  itemAttachments : List AttachmentRow
  deriving DecidableEq, Repr

/-- `SELECT itemID FROM items WHERE key = ? AND libraryID = 1` + `fetchone`. -/
def findItem (db : DB) (key : String) : Option Nat :=
  (db.items.find? (fun r => r.key = key ∧ r.libraryID = 1)).map (fun r => r.itemID)

/-- `SELECT MAX(valueID) FROM itemDataValues`, with NULL mapped to 0. -/
def maxValueID (vs : List ValueRow) : Nat :=
  vs.foldl (fun m r => max m r.valueID) 0

/-- `SELECT MAX(itemID) FROM items`, with NULL mapped to 0. -/
def maxItemID (items : List ItemRow) : Nat :=
  items.foldl (fun m r => max m r.itemID) 0

/-- `SELECT MAX(tagID) FROM tags`, with NULL mapped to 0. -/
def maxTagID (tags : List TagRow) : Nat :=
  tags.foldl (fun m r => max m r.tagID) 0

/-- `SELECT fieldID FROM fields WHERE fieldName = ?` + `fetchone`. -/
def findFieldID (fs : List FieldRow) (name : String) : Option Nat :=
  (fs.find? (fun r => r.fieldName = name)).map (fun r => r.fieldID)

/-- `UPDATE itemDataValues SET value = ? WHERE valueID = ?`. -/
def writeValue (t : Nat) (v : String) (vs : List ValueRow) : List ValueRow :=
  vs.map (fun r => if r.valueID = t then ⟨r.valueID, v⟩ else r)

/-! ## StoreAdapter `setFields`: `update_item` (zotero_integration.py 2732-2821) -/

/-- The keys of `field_name_to_id`; each maps to itself. -/
def updatable_fields : List String :=
  ["title", "abstractNote", "date", "url", "publicationTitle", "DOI"]

/-- One iteration of the `for field_name, field_value in updates.items()`
loop of `update_item`: skip unknown names, otherwise upsert the FieldValue
for `(item_id, field_id)` (overwrite through the first matching `itemData`
row, or allocate `MAX(valueID)+1` and link a fresh pair). -/
def updateFieldStep (itemId : Nat) (db : DB) (p : String × String) : DB :=
  if p.1 ∈ updatable_fields then
    match findFieldID db.fields p.1 with
    | none => db
    | some fieldId =>
      match db.itemData.find? (fun r => r.itemID = itemId ∧ r.fieldID = fieldId) with
      | some r =>
        { db with itemDataValues := writeValue r.valueID p.2 db.itemDataValues }
      | none =>
        let m := maxValueID db.itemDataValues
        { db with
          itemDataValues := db.itemDataValues ++ [⟨m + 1, p.2⟩],
          itemData := db.itemData ++ [⟨itemId, fieldId, m + 1⟩] }
  else db

/-- Whether the loop iteration counts the field as updated
(`updated_fields.append` runs whenever the field name is known and its
`fields` row exists). -/
def fieldCounted (db : DB) (p : String × String) : Bool :=
  p.1 ∈ updatable_fields ∧ (findFieldID db.fields p.1).isSome

/-- `update_item(item_key, updates)`: resolve the item, fold the upsert
over the update map (its keys in insertion order), and report success iff
at least one field was updated. -/
def update_item (db : DB) (itemKey : String) (updates : List (String × String)) :
    Bool × DB :=
  match findItem db itemKey with
  | none => (false, db)
  | some itemId =>
    let db' := updates.foldl (updateFieldStep itemId) db
    (updates.any (fieldCounted db), db')

/-! ## StoreAdapter `setTags`: `update_item_tags` (zotero_integration.py 2823-2882) -/

/-- `SELECT tagID FROM tags WHERE name = ?`, creating `MAX(tagID)+1` when
absent; returns the id and the updated `tags` table. -/
def getOrCreateTag (tags : List TagRow) (name : String) : Nat × List TagRow :=
  match tags.find? (fun r => r.name = name) with
  | some r => (r.tagID, tags)
  | none =>
    let m := maxTagID tags
    (m + 1, tags ++ [⟨m + 1, name⟩])

/-- One iteration of the `for tag in tags` loop: resolve or create the tag
row, then link it to the item with `type = 0`. -/
def addTagStep (itemId : Nat) (db : DB) (name : String) : DB :=
  let (tagId, tags') := getOrCreateTag db.tags name
  { db with tags := tags', itemTags := db.itemTags ++ [⟨itemId, tagId, 0⟩] }

/-- `update_item_tags(item_key, tags)`: resolve the item, delete its
existing `itemTags` rows, then insert one row per requested name. -/
def update_item_tags (db : DB) (itemKey : String) (tags : List String) :
    Bool × DB :=
  match findItem db itemKey with
  | none => (false, db)
  | some itemId =>
    let db0 := { db with itemTags := db.itemTags.filter (fun r => ¬ r.itemID = itemId) }
    (true, tags.foldl (addTagStep itemId) db0)

/-! ## StoreAdapter `deleteItem`: `delete_item` (zotero_integration.py 2884-2928) -/

/-- `delete_item(item_key)`: resolve the item, then delete from `itemTags`,
`itemCreators`, `itemData` and finally `items` — and from no other table. -/
def delete_item (db : DB) (itemKey : String) : Bool × DB :=
  match findItem db itemKey with
  | none => (false, db)
  | some itemId =>
    (true,
      { db with
        itemTags := db.itemTags.filter (fun r => ¬ r.itemID = itemId),
        itemCreators := db.itemCreators.filter (fun r => ¬ r.itemID = itemId),
        itemData := db.itemData.filter (fun r => ¬ r.itemID = itemId),
        items := db.items.filter (fun r => ¬ r.itemID = itemId) })

/-! ## StoreAdapter `linkItemToCollection`: `move_item_to_collection`
(zotero_integration.py 2930-2987) -/

/-- `move_item_to_collection(item_key, collection_key)`: resolve both keys;
if the `(collectionID, itemID)` link row already exists return success
without inserting, otherwise insert the link row. -/
def move_item_to_collection (db : DB) (itemKey collectionKey : String) :
    Bool × DB :=
  match findItem db itemKey with
  | none => (false, db)
  | some itemId =>
    match db.collections.find?
        (fun c => c.libraryID = 1 ∧ c.collectionKey = collectionKey) with
    | none => (false, db)
    | some c =>
      if (db.collectionItems.find?
          (fun r => r.collectionID = c.collectionID ∧ r.itemID = itemId)).isSome then
        (true, db)
      else
        (true,
          { db with collectionItems :=
              db.collectionItems ++ [⟨c.collectionID, itemId⟩] })

/-! ## AttachmentWriter: `_attach_pdf_to_zotero` (pdf_fetcher.py 762-829)

The function issues a fixed sequence of `INSERT` statements.  SQLite checks
on each `INSERT` that the column list and the value list have the same
length and raises `OperationalError` otherwise; the broad `except` of the
function turns that into a failure dictionary, and since `conn.commit()`
was never reached, no row becomes durable.  The embedding keeps each
statement as its literal column list, its literal value list and its row
effect, and executes them under that arity rule. -/

/-- A value in an `INSERT ... VALUES` list. -/
inductive SqlVal
  | int (n : Nat)
  | str (s : String)
  | null
  deriving DecidableEq, Repr

/-- An `INSERT` statement: column names, values and the row it appends. -/
structure InsertStmt where
  table : String
  cols : List String
  vals : List SqlVal
  effect : DB → DB

/-- Execute statements in order; the first column/value arity mismatch
raises and aborts the rest. -/
def runInserts : List InsertStmt → DB → Except String DB
  | [], db => .ok db
  | s :: rest, db =>
    if s.cols.length = s.vals.length then runInserts rest (s.effect db)
    else .error (toString s.vals.length ++ " values for " ++
      toString s.cols.length ++ " columns")

/-- The five `INSERT` statements of `_attach_pdf_to_zotero`, with column
and value lists transcribed from the source SQL.  `aid` is the new
attachment item id (`MAX(itemID)+1`), `vid` the new value id
(`MAX(valueID)+1`), `newKey` the 8-character random key and `now` the
`datetime("now")` timestamp. -/
def attachStmts (db : DB) (itemId : Nat) (itemKey filename : String)
    (aid vid : Nat) (newKey now : String) : List InsertStmt :=
  [ { table := "items",
      cols := ["itemID", "itemTypeID", "dateAdded", "dateModified",
               "clientDateModified", "libraryID", "key", "version", "synced"],
      vals := [.int aid, .int 3, .str now, .str now, .str now, .int 1,
               .str newKey, .int 1, .int 0],
      effect := fun d => { d with items := d.items ++ [⟨aid, 3, 1, newKey⟩] } },
    { table := "itemData",
      cols := ["itemID", "fieldID", "valueID"],
      -- the second value is the scalar subquery
      -- (SELECT fieldID FROM fields WHERE fieldName = "title")
      vals := [.int aid,
               (match findFieldID db.fields "title" with
                | some f => .int f
                | none => .null),
               .int vid],
      effect := fun d =>
        { d with itemData :=
            d.itemData ++ [⟨aid, (findFieldID db.fields "title").getD 0, vid⟩] } },
    { table := "itemDataValues",
      cols := ["valueID", "value"],
      vals := [.int vid, .str filename],
      effect := fun d => { d with itemDataValues := d.itemDataValues ++ [⟨vid, filename⟩] } },
    { table := "itemAttachments",
      -- the source lists seven columns but supplies eight values
      cols := ["itemID", "parentItemID", "contentType", "filename", "path",
               "storageHash", "sourceItemKey"],
      vals := [.int aid, .int itemId, .str "application/pdf", .str filename,
               .str "", .str "", .null, .str itemKey],
      -- unreachable: SQLite rejects the statement before inserting; the
      -- effect records the row the values evidently intend
      effect := fun d =>
        { d with itemAttachments :=
            d.itemAttachments ++ [⟨aid, itemId, "application/pdf", filename⟩] } },
    { table := "itemCreators",
      cols := ["creatorID", "firstName", "lastName", "creatorTypeID"],
      vals := [.int aid, .str "ZotLink", .str "PDF", .int 1],
      -- unreachable: execution aborted at the previous statement; the
      -- statement binds no itemID, modelled as 0
      effect := fun d =>
        { d with itemCreators := d.itemCreators ++ [⟨0, aid, 1⟩] } } ]

/-- Result dictionary of `_attach_pdf_to_zotero`. -/
structure AttachResult where
  success : Bool
  attachment_key : Option String
  deriving DecidableEq, Repr

/-- `_attach_pdf_to_zotero(item_key, pdf_content, item_info)`: resolve the
parent item, allocate ids, run the five inserts, commit on success.  The
PDF bytes themselves are never written to the store (the attachment row
would carry an empty `path`). -/
def attach_pdf_to_zotero (db : DB) (itemKey title : String) (newKey now : String) :
    AttachResult × DB :=
  match findItem db itemKey with
  | none => (⟨false, none⟩, db)
  | some itemId =>
    let filename := strTake title 50 ++ ".pdf"
    let aid := maxItemID db.items + 1
    let vid := maxValueID db.itemDataValues + 1
    match runInserts (attachStmts db itemId itemKey filename aid vid newKey now) db with
    | .ok db2 => (⟨true, some newKey⟩, db2)
    | .error _ => (⟨false, none⟩, db)

/-! ## MetadataReconciler: `_compare_metadata`, `validate_and_update_item`
(zotero_integration.py 3095-3210) -/

/-- Collapse each whitespace run to a single space
(`re.sub(r"\s+", " ", s)`); the flag records whether the previous
character was whitespace. -/
def collapseWsAux : Bool → List Char → List Char
  | _, [] => []
  | prevWs, c :: rest =>
    if isPyWsChar c then
      if prevWs then collapseWsAux true rest
      else ' ' :: collapseWsAux true rest
    else c :: collapseWsAux false rest

/-- Collapse each whitespace run of a character list to one space. -/
def collapseWs (l : List Char) : List Char := collapseWsAux false l

/-- `_normalize_abstract`. -/
def normalize_abstract (abstract : String) : String :=
  if abstract = "" then "" else String.mk (collapseWs (trimChars abstract.data))

/-- `_normalize_date`: strip, then keep the first 10 characters when the
result is at least 10 long. -/
def normalize_date (date : String) : String :=
  if date = "" then ""
  else
    let d := pyStrip date
    if d.data.length ≥ 10 then strTake d 10 else d

/-- A Zotero creator dictionary. -/
structure ZCreator where
  creatorType : String
  lastName : String
  firstName : String
  deriving DecidableEq, Repr

/-- The Zotero-side metadata record assembled by `validate_item_with_arxiv`. -/
structure ZMeta where
  title : String
  abstract : String
  date : String
  url : String
  doi : String
  creators : List ZCreator
  deriving DecidableEq, Repr

/-- An author dictionary of the arXiv extractor. -/
structure ArxivAuthor where
  lastName : String
  firstName : String
  deriving DecidableEq, Repr

/-- The arXiv-side metadata record. -/
structure AMeta where
  title : String
  abstract : String
  date : String
  doi : String
  authors : List ArxivAuthor
  deriving DecidableEq, Repr

/-- `_extract_last_names`: authors and coauthors with a non-empty stripped
last name, in order. -/
def extract_last_names (creators : List ZCreator) : List String :=
  (creators.filter (fun c =>
      (c.creatorType = "author" ∨ c.creatorType = "coauthor") ∧
      pyStrip c.lastName ≠ "")).map (fun c => pyStrip c.lastName)

/-- Equality of two string lists as sets (`set(a) == set(b)`). -/
def listSetEq (a b : List String) : Bool :=
  a.all (fun x => x ∈ b) && b.all (fun x => x ∈ a)

/-- Truncation for display: `s[:200] + "..."` when longer than 200. -/
def truncate200 (s : String) : String :=
  if s.data.length > 200 then strTake s 200 ++ "..." else s

/-- One entry of the differences dictionary: the field name and the two
reported values. -/
structure DiffEntry where
  field : String
  zoteroValue : String
  arxivValue : String
  deriving DecidableEq, Repr

/-- `_compare_metadata(zotero, arxiv)`: the differences dictionary, in the
insertion order title, abstract, date, authors, doi. -/
def compare_metadata (z : ZMeta) (a : AMeta) : List DiffEntry :=
  let titleZ := pyStrip z.title
  let titleA := pyStrip a.title
  let titlePart : List DiffEntry :=
    if lowerStrBytes titleZ ≠ lowerStrBytes titleA then
      [⟨"title", titleZ, titleA⟩]
    else []
  let absZ := normalize_abstract z.abstract
  let absA := normalize_abstract a.abstract
  let absPart : List DiffEntry :=
    if absZ ≠ absA then [⟨"abstract", truncate200 absZ, truncate200 absA⟩] else []
  let dateZ := normalize_date z.date
  let dateA := normalize_date a.date
  let datePart : List DiffEntry :=
    if dateZ ≠ "" ∧ dateA ≠ "" ∧ dateZ ≠ dateA then [⟨"date", dateZ, dateA⟩] else []
  let authZ := extract_last_names z.creators
  let authA := a.authors.map (fun x => x.lastName)
  let authPart : List DiffEntry :=
    if authZ ≠ [] ∧ authA ≠ [] ∧ ¬ listSetEq authZ authA then
      [⟨"authors", String.intercalate ", " authZ, String.intercalate ", " authA⟩]
    else []
  let doiZ := pyStrip z.doi
  let doiA := pyStrip a.doi
  let doiPart : List DiffEntry :=
    if doiZ ≠ "" ∧ doiA ≠ "" ∧ doiZ ≠ doiA then [⟨"doi", doiZ, doiA⟩] else []
  titlePart ++ absPart ++ datePart ++ authPart ++ doiPart

/-- Result of `validate_and_update_item` after a successful validation:
whether the "matches perfectly" dictionary was returned, which update map
(if any) was pushed through `update_item`, and the resulting store. -/
structure VUOut where
  consistent : Bool
  updates_applied : Option (List (String × String))
  db : DB
  deriving DecidableEq, Repr

/-- The update map `validate_and_update_item` assembles from the
differences: the arXiv title, abstract and date, each included only when
its field is in the differences dictionary. -/
def vuUpdates (diffs : List DiffEntry) (a : AMeta) : List (String × String) :=
  (if diffs.any (fun d => d.field = "title") then [("title", a.title)] else []) ++
  (if diffs.any (fun d => d.field = "abstract") then [("abstractNote", a.abstract)] else []) ++
  (if diffs.any (fun d => d.field = "date") then [("date", a.date)] else [])

/-- `validate_and_update_item(item_key, apply_updates)` on the path where
`validate_item_with_arxiv` succeeded with Zotero metadata `z` and arXiv
metadata `a`: empty diff reports the item as already consistent with no
store update; otherwise, when `apply_updates` is set, the assembled update
map (when non-empty) is pushed through `update_item`. -/
def validate_and_update_item (db : DB) (itemKey : String) (z : ZMeta) (a : AMeta)
    (applyUpdates : Bool) : VUOut :=
  if compare_metadata z a = [] then ⟨true, none, db⟩
  else if applyUpdates then
    if vuUpdates (compare_metadata z a) a ≠ [] then
      ⟨false, some (vuUpdates (compare_metadata z a) a),
        (update_item db itemKey (vuUpdates (compare_metadata z a) a)).2⟩
    else ⟨false, none, db⟩
  else ⟨false, none, db⟩

/-! ## Write-trace infrastructure for the `update_item` idempotence proof

`update_item` only ever touches `itemDataValues` through in-place value
writes and fresh-id appends.  The trace of a run records those effects as a
list of operations, so that replaying a run over its own result can be
analysed as replaying a write list. -/

/-- An effect of one loop iteration on `itemDataValues`: an in-place write
of every row with the target id, or an append of a fresh row. -/
inductive DOp
  | wr (t : Nat) (v : String)
  | ins (t : Nat) (v : String)
  deriving DecidableEq, Repr

/-- Apply one operation. -/
def applyOp (vs : List ValueRow) : DOp → List ValueRow
  | .wr t v => writeValue t v vs
  | .ins t v => vs ++ [⟨t, v⟩]

/-- Apply a list of operations in order. -/
def applyOps (vs : List ValueRow) (ops : List DOp) : List ValueRow :=
  ops.foldl applyOp vs

/-- The value id an operation writes. -/
def opTarget : DOp → Nat
  | .wr t _ => t
  | .ins t _ => t

/-- The value an operation writes. -/
def opVal : DOp → String
  | .wr _ v => v
  | .ins _ v => v

/-- Replace an append by the in-place write of the same target and value
(the form the replayed run takes once the row exists). -/
def projOp : DOp → DOp
  | .wr t v => .wr t v
  | .ins t v => .wr t v

/-- Validity of an operation list against a start state: every append uses
an id not yet present at its point of execution. -/
def OpsValid : List ValueRow → List DOp → Prop
  | _, [] => True
  | vs, .wr t v :: rest => OpsValid (writeValue t v vs) rest
  | vs, .ins t v :: rest =>
    t ∉ vs.map (fun r => r.valueID) ∧ OpsValid (vs ++ [⟨t, v⟩]) rest

/-- The operations one `update_item` loop iteration performs on
`itemDataValues`. -/
def stepOps (itemId : Nat) (db : DB) (p : String × String) : List DOp :=
  if p.1 ∈ updatable_fields then
    match findFieldID db.fields p.1 with
    | none => []
    | some fieldId =>
      match db.itemData.find? (fun r => r.itemID = itemId ∧ r.fieldID = fieldId) with
      | some r => [.wr r.valueID p.2]
      | none => [.ins (maxValueID db.itemDataValues + 1) p.2]
  else []

/-- The `itemData` rows one loop iteration appends. -/
def stepIDRows (itemId : Nat) (db : DB) (p : String × String) : List ItemDataRow :=
  if p.1 ∈ updatable_fields then
    match findFieldID db.fields p.1 with
    | none => []
    | some fieldId =>
      match db.itemData.find? (fun r => r.itemID = itemId ∧ r.fieldID = fieldId) with
      | some _ => []
      | none => [⟨itemId, fieldId, maxValueID db.itemDataValues + 1⟩]
  else []

/-- The operations a whole `update_item` loop performs, step by step. -/
def runOps (itemId : Nat) (db : DB) : List (String × String) → List DOp
  | [] => []
  | p :: rest => stepOps itemId db p ++ runOps itemId (updateFieldStep itemId db p) rest

/-- The `itemData` rows a whole loop appends, step by step. -/
def runIDRows (itemId : Nat) (db : DB) : List (String × String) → List ItemDataRow
  | [] => []
  | p :: rest =>
    stepIDRows itemId db p ++ runIDRows itemId (updateFieldStep itemId db p) rest

/-! ## Tag-name lookup (used to state the `setTags` property) -/

/-- The name a tag id resolves to: first `tags` row with that id. -/
def tagName (tags : List TagRow) (tid : Nat) : Option String :=
  (tags.find? (fun r => r.tagID = tid)).map (fun r => r.name)

/-! ## Concrete instances used by counterexamples and witnesses -/

/-- A small store: one parent item (key ABC123, internal id 1) with a
title field value, one creator, one tag link, and membership in one
collection. -/
def exDb : DB :=
  { items := [⟨1, 2, 1, "ABC123"⟩],
    itemData := [⟨1, 10, 100⟩],
    itemDataValues := [⟨100, "Old Title"⟩],
    fields := [⟨10, "title"⟩, ⟨11, "abstractNote"⟩, ⟨12, "date"⟩, ⟨13, "DOI"⟩],
    tags := [⟨5, "existing"⟩],
    itemTags := [⟨1, 5, 0⟩],
    itemCreators := [⟨1, 7, 1⟩],
    collections := [⟨20, 1, "COLLKEY1"⟩],
    collectionItems := [⟨20, 1⟩],
    itemAttachments := [] }

/-- A 9-byte buffer with the PDF magic bytes: every strategy check accepts
it, the validator rejects it (minimum size). -/
def smallPdf : List Nat := strBytes "%PDF-1.4\n"

/-- A well-formed PDF buffer of 1024 bytes. -/
def goodPdf : List Nat :=
  strBytes ("%PDF" ++ String.mk (List.replicate 1015 'A') ++ "%%EOF")

/-- A 1024-byte buffer with the magic bytes and trailer but an embedded
`<html` token. -/
def htmlPdf : List Nat :=
  strBytes ("%PDF<html" ++ String.mk (List.replicate 1010 'A') ++ "%%EOF")

/-- A 1024-byte buffer with the magic bytes but no trailing `%%EOF`. -/
def noEofPdf : List Nat := strBytes ("%PDF" ++ String.mk (List.replicate 1020 'A'))

/-- Item info of an item whose URL carries an arXiv id. -/
def arxivInfo : ItemInfo := mkItemInfo "KEY1" "Paper" "" "https://arxiv.org/abs/2301.00001"

/-- Item info of an item with no usable identifiers. -/
def plainInfo : ItemInfo := mkItemInfo "KEY2" "Other" "" "https://example.com"

/-- Network behaviour where arXiv answers 200 with the undersized buffer
and every other provider finds nothing. -/
def tinyNet : String → Option StratResult := fun src =>
  if src = "arxiv" then fetch_from_arxiv arxivInfo ⟨200, smallPdf⟩ else none

/-- Network behaviour where the first two providers find nothing and the
third (open_access) succeeds. -/
def thirdNet : String → Option StratResult := fun src =>
  if src = "open_access" then some ⟨true, "Unpaywall", goodPdf, "http://oa"⟩ else none

/-- Zotero-side metadata for the reconciliation counterexample. -/
def doiOnlyZ : ZMeta :=
  ⟨"Same Title", "Same abstract.", "2020-01-01", "u", "10.1000/a", [⟨"author", "Doe", "J"⟩]⟩

/-- arXiv-side metadata equal to `doiOnlyZ` except for the DOI. -/
def doiOnlyA : AMeta :=
  ⟨"Same Title", "Same abstract.", "2020-01-01", "10.48550/b", [⟨"Doe", "J"⟩]⟩

/-- Zotero-side metadata differing from the arXiv record only in title. -/
def titleZ2 : ZMeta := ⟨"Old Title", "A", "2020-01-01", "u", "", []⟩

/-- arXiv-side metadata with the corrected title. -/
def titleA2 : AMeta := ⟨"New Title", "A", "2020-01-01", "", []⟩

/-! # Theorems -/

/-! ## Shared list lemmas -/

theorem findq_append_some {α : Type} (p : α → Bool) {l1 : List α} (l2 : List α)
    {x : α} (h : l1.find? p = some x) : (l1 ++ l2).find? p = some x := by
  induction l1 with
  | nil => simp [List.find?] at h
  | cons a t ih =>
    by_cases ha : p a
    · simp [List.find?, ha] at h ⊢; exact h
    · simp only [List.cons_append, List.find?]
      rw [Bool.not_eq_true] at ha
      rw [ha]
      rw [List.find?] at h
      rw [ha] at h
      exact ih h

theorem findq_append_none {α : Type} (p : α → Bool) {l1 : List α} (l2 : List α)
    (h : l1.find? p = none) : (l1 ++ l2).find? p = l2.find? p := by
  induction l1 with
  | nil => simp
  | cons a t ih =>
    by_cases ha : p a
    · simp [List.find?, ha] at h
    · rw [Bool.not_eq_true] at ha
      rw [List.find?, ha] at h
      simp only [List.cons_append, List.find?, ha]
      exact ih h

/-! ## Claim C9: `_get_source_order` -/

/-- Claim C9: `_get_source_order("auto")` is the full default provider
list; a known source name is moved to the head with the remainder in its
default relative order; an unknown name yields the default list; and no
provider is ever dropped (every result is a permutation of the default
list). -/
theorem get_source_order_spec :
    get_source_order "auto" = all_sources ∧
    (∀ s ∈ all_sources,
      get_source_order s = s :: all_sources.filter (fun x => x ≠ s)) ∧
    (∀ s, s ∉ all_sources → get_source_order s = all_sources) ∧
    (∀ s, (get_source_order s).Perm all_sources) := by
  refine ⟨rfl, by decide, ?_, ?_⟩
  · intro s hs
    by_cases h1 : s = "auto"
    · simp [get_source_order, h1]
    · simp [get_source_order, h1, hs]
  · intro s
    by_cases h1 : s = "auto"
    · simp [get_source_order, h1]
    · by_cases h2 : s ∈ all_sources
      · fin_cases h2 <;> decide
      · simp [get_source_order, h1, h2]

/-- Witness for C9 at concrete inputs. -/
theorem get_source_order_spec_witness :
    get_source_order "scihub" =
      "scihub" :: all_sources.filter (fun x => x ≠ "scihub") ∧
    get_source_order "bogus" = all_sources ∧
    (get_source_order "libgen").Perm all_sources :=
  ⟨get_source_order_spec.2.1 "scihub" (by decide),
   get_source_order_spec.2.2.1 "bogus" (by decide),
   get_source_order_spec.2.2.2 "libgen"⟩

/-! ## Claim C2: `delete_item` -/

/-- Counterexample to C2: deleting item ABC123 (internal id 1), which is a
member of collection 20, reports success and removes the `items` row, yet
the `collectionItems` row for internal id 1 survives as an orphan —
`delete_item` never touches the `collectionItems` table. -/
theorem delete_item_counterexample :
    (delete_item exDb "ABC123").1 = true ∧
    (delete_item exDb "ABC123").2.items.filter (fun r => r.itemID = 1) = [] ∧
    (delete_item exDb "ABC123").2.collectionItems.filter (fun r => r.itemID = 1) =
      [⟨20, 1⟩] := by decide

/-- Amended C2: for every item key present in the store, `delete_item`
deletes all ItemTag, ItemCreator and ItemField rows for the item's
internal id together with the items row, leaving no orphan in those three
tables — but CollectionItem rows are not deleted and survive unchanged. -/
theorem delete_item_spec (db : DB) (key : String) (i : Nat)
    (h : findItem db key = some i) :
    (delete_item db key).1 = true ∧
    (delete_item db key).2.itemTags.filter (fun r => r.itemID = i) = [] ∧
    (delete_item db key).2.itemCreators.filter (fun r => r.itemID = i) = [] ∧
    (delete_item db key).2.itemData.filter (fun r => r.itemID = i) = [] ∧
    (delete_item db key).2.items.filter (fun r => r.itemID = i) = [] ∧
    (delete_item db key).2.collectionItems = db.collectionItems := by
  unfold delete_item
  rw [h]
  refine ⟨rfl, ?_, ?_, ?_, ?_, rfl⟩ <;>
    simp [List.filter_filter]

/-- Witness for the amended C2 at the concrete store. -/
theorem delete_item_spec_witness :
    findItem exDb "ABC123" = some 1 ∧
    (delete_item exDb "ABC123").2.itemData.filter (fun r => r.itemID = 1) = [] :=
  ⟨by decide, (delete_item_spec exDb "ABC123" 1 (by decide)).2.2.2.1⟩

/-! ## Claim C10: `move_item_to_collection` -/

/-- Claim C10: linking an item to a collection is idempotent — when the
link row already exists the call inserts nothing and still succeeds, and
two successive calls leave exactly one link row for the pair. -/
theorem move_item_to_collection_idempotent (db : DB) (ikey ckey : String)
    (i : Nat) (crow : CollectionRow)
    (hi : findItem db ikey = some i)
    (hc : db.collections.find?
      (fun c => c.libraryID = 1 ∧ c.collectionKey = ckey) = some crow)
    (hcount : (db.collectionItems.filter
      (fun r => r.collectionID = crow.collectionID ∧ r.itemID = i)).length ≤ 1) :
    (move_item_to_collection db ikey ckey).1 = true ∧
    (move_item_to_collection (move_item_to_collection db ikey ckey).2 ikey ckey).1
      = true ∧
    (move_item_to_collection (move_item_to_collection db ikey ckey).2 ikey ckey).2
      = (move_item_to_collection db ikey ckey).2 ∧
    ((move_item_to_collection db ikey ckey).2.collectionItems.filter
      (fun r => r.collectionID = crow.collectionID ∧ r.itemID = i)).length = 1 ∧
    ((db.collectionItems.find?
        (fun r => r.collectionID = crow.collectionID ∧ r.itemID = i)).isSome →
      (move_item_to_collection db ikey ckey).2 = db) := by
  cases hex : db.collectionItems.find?
      (fun r => r.collectionID = crow.collectionID ∧ r.itemID = i) with
  | some r =>
    have hmem : r ∈ db.collectionItems := List.mem_of_find?_eq_some hex
    have hpr := List.find?_some hex
    have hfmem : r ∈ db.collectionItems.filter
        (fun x => x.collectionID = crow.collectionID ∧ x.itemID = i) :=
      List.mem_filter.mpr ⟨hmem, hpr⟩
    have hlen : 1 ≤ (db.collectionItems.filter
        (fun x => x.collectionID = crow.collectionID ∧ x.itemID = i)).length :=
      List.length_pos.mpr (List.ne_nil_of_mem hfmem)
    have honce : move_item_to_collection db ikey ckey = (true, db) := by
      unfold move_item_to_collection
      rw [hi, hc]
      show (if (db.collectionItems.find?
          (fun r => r.collectionID = crow.collectionID ∧ r.itemID = i)).isSome
        then ((true, db) : Bool × DB) else _) = ((true, db) : Bool × DB)
      rw [hex]
      rfl
    refine ⟨?_, ?_, ?_, ?_, fun _ => ?_⟩
    · rw [honce]
    · rw [honce]
      show (move_item_to_collection db ikey ckey).1 = true
      rw [honce]
    · rw [honce]
      show (move_item_to_collection db ikey ckey).2 = db
      rw [honce]
    · rw [honce]
      show (db.collectionItems.filter
        (fun x => x.collectionID = crow.collectionID ∧ x.itemID = i)).length = 1
      omega
    · rw [honce]
  | none =>
    have hfilt : db.collectionItems.filter
        (fun r => r.collectionID = crow.collectionID ∧ r.itemID = i) = [] := by
      rw [List.filter_eq_nil_iff]
      intro a ha
      have := List.find?_eq_none.mp hex a ha
      simpa using this
    have honce : move_item_to_collection db ikey ckey =
        (true, { db with collectionItems :=
          db.collectionItems ++ [⟨crow.collectionID, i⟩] }) := by
      unfold move_item_to_collection
      rw [hi, hc]
      show (if (db.collectionItems.find?
          (fun r => r.collectionID = crow.collectionID ∧ r.itemID = i)).isSome
        then _ else ((true, { db with collectionItems :=
          db.collectionItems ++ [⟨crow.collectionID, i⟩] }) : Bool × DB)) = _
      rw [hex]
      rfl
    have hfind2 : (db.collectionItems ++
        ([⟨crow.collectionID, i⟩] : List CollectionItemRow)).find?
        (fun r => r.collectionID = crow.collectionID ∧ r.itemID = i) =
        some ⟨crow.collectionID, i⟩ := by
      rw [findq_append_none _ _ hex]
      simp [List.find?]
    have htwice : move_item_to_collection
        ({ db with collectionItems :=
          db.collectionItems ++ [⟨crow.collectionID, i⟩] } : DB) ikey ckey =
        (true, { db with collectionItems :=
          db.collectionItems ++ [⟨crow.collectionID, i⟩] }) := by
      unfold move_item_to_collection
      have hi2 : findItem ({ db with collectionItems :=
          db.collectionItems ++ [⟨crow.collectionID, i⟩] } : DB) ikey = some i := hi
      have hc2 : ({ db with collectionItems :=
          db.collectionItems ++ [⟨crow.collectionID, i⟩] } : DB).collections.find?
          (fun c => c.libraryID = 1 ∧ c.collectionKey = ckey) = some crow := hc
      rw [hi2, hc2]
      show (if ((db.collectionItems ++
          ([⟨crow.collectionID, i⟩] : List CollectionItemRow)).find?
          (fun r => r.collectionID = crow.collectionID ∧ r.itemID = i)).isSome
        then ((true, ({ db with collectionItems :=
          db.collectionItems ++ [⟨crow.collectionID, i⟩] } : DB)) : Bool × DB)
        else _) = _
      rw [hfind2]
      rfl
    refine ⟨?_, ?_, ?_, ?_, ?_⟩
    · rw [honce]
    · rw [honce]
      show (move_item_to_collection ({ db with collectionItems :=
        db.collectionItems ++ [⟨crow.collectionID, i⟩] } : DB) ikey ckey).1 = true
      rw [htwice]
    · rw [honce]
      show (move_item_to_collection ({ db with collectionItems :=
          db.collectionItems ++ [⟨crow.collectionID, i⟩] } : DB) ikey ckey).2 =
        ({ db with collectionItems :=
          db.collectionItems ++ [⟨crow.collectionID, i⟩] } : DB)
      rw [htwice]
    · rw [honce]
      show ((db.collectionItems ++
          ([⟨crow.collectionID, i⟩] : List CollectionItemRow)).filter
          (fun r => r.collectionID = crow.collectionID ∧ r.itemID = i)).length = 1
      rw [List.filter_append, hfilt]
      simp
    · intro hcontra
      simp [hex] at hcontra

/-- Witness for C10 at the concrete store: item ABC123 is already in
collection 20, so the first call changes nothing. -/
theorem move_item_to_collection_idempotent_witness :
    (move_item_to_collection exDb "ABC123" "COLLKEY1").1 = true ∧
    (move_item_to_collection exDb "ABC123" "COLLKEY1").2 = exDb ∧
    ((move_item_to_collection exDb "ABC123" "COLLKEY1").2.collectionItems.filter
      (fun r => r.collectionID = 20 ∧ r.itemID = 1)).length = 1 := by
  have h := move_item_to_collection_idempotent exDb "ABC123" "COLLKEY1" 1
    ⟨20, 1, "COLLKEY1"⟩ (by decide) (by decide) (by decide)
  exact ⟨h.1, h.2.2.2.2 (by decide), h.2.2.2.1⟩

/-! ## Claim C1: `_attach_pdf_to_zotero` -/

/-- Claim C1 (code bug): the `itemAttachments` INSERT of
`_attach_pdf_to_zotero` lists seven columns but supplies eight values, so
SQLite raises before anything is committed: for every store and every
parent key the call returns `success = False` with no attachment key and
leaves the store unchanged, and the arity profile of the five statements
is `[ok, ok, ok, mismatch, ok]`. -/
theorem attach_pdf_always_fails (db : DB) (itemKey title newKey now : String) :
    (attach_pdf_to_zotero db itemKey title newKey now).1.success = false ∧
    (attach_pdf_to_zotero db itemKey title newKey now).1.attachment_key = none ∧
    (attach_pdf_to_zotero db itemKey title newKey now).2 = db ∧
    (∀ i : Nat,
      (attachStmts db i itemKey (strTake title 50 ++ ".pdf") (maxItemID db.items + 1)
          (maxValueID db.itemDataValues + 1) newKey now).map
        (fun s => decide (s.cols.length = s.vals.length)) =
      [true, true, true, false, true]) := by
  unfold attach_pdf_to_zotero
  cases h : findItem db itemKey with
  | none => exact ⟨rfl, rfl, rfl, fun _ => rfl⟩
  | some i => exact ⟨rfl, rfl, rfl, fun _ => rfl⟩

/-! ## Claim C8: `_validate_pdf_content` -/

/-- Claim C8: the six validation rules fire in source order, the first
failing rule naming the rejection: any buffer under 1024 bytes is rejected
as too small (even with the magic bytes), any buffer whose first 2KB
contains an HTML token is rejected, an undersized nature.com response is
rejected, a buffer without `%%EOF` in its final 1KB is rejected, and a
buffer passing all six checks is accepted. -/
theorem validate_pdf_content_spec :
    (∀ data ct url, data.length < 1024 →
      validate_pdf_content data ct url = ⟨false, .tooSmall⟩) ∧
    (∀ data ct url, htmlFound data = true →
      (validate_pdf_content data ct url).is_valid = false) ∧
    (∀ data ct url,
      occursIn (strBytes "nature.com") (lowerStrBytes url) = true →
      data.length < 500000 →
      (validate_pdf_content data ct url).is_valid = false) ∧
    (∀ data ct url, occursIn (strBytes "%%EOF") (lastSlice 1024 data) = false →
      (validate_pdf_content data ct url).is_valid = false) ∧
    (∀ data ct url,
      1024 ≤ data.length →
      (lowerStrBytes ct = [] ∨
        occursIn (strBytes "pdf") (lowerStrBytes ct) = true ∨
        lowerStrBytes ct = strBytes "application/octet-stream") →
      leadsWith pdfMagic data = true →
      htmlFound data = false →
      ¬ (occursIn (strBytes "nature.com") (lowerStrBytes url) = true ∧
        data.length < 500000) →
      occursIn (strBytes "%%EOF") (lastSlice 1024 data) = true →
      validate_pdf_content data ct url = ⟨true, .accepted⟩) := by
  have hrej : ∀ data ct url r,
      validate_pdf_content data ct url = r → r.reason ≠ VReason.accepted →
      r.is_valid = false := by
    intro data ct url r hr hne
    unfold validate_pdf_content at hr
    repeat' split at hr
    all_goals first | (exact absurd (congrArg VResult.reason hr.symm) hne) | (rw [← hr])
  refine ⟨?_, ?_, ?_, ?_, ?_⟩
  · intro data ct url h
    unfold validate_pdf_content
    rw [if_pos h]
  · intro data ct url h
    cases hr : validate_pdf_content data ct url with
    | mk v reason =>
      refine hrej data ct url _ hr ?_
      intro hacc
      unfold validate_pdf_content at hr
      repeat' split at hr
      all_goals simp_all
  · intro data ct url hn hs
    cases hr : validate_pdf_content data ct url with
    | mk v reason =>
      refine hrej data ct url _ hr ?_
      intro hacc
      unfold validate_pdf_content at hr
      repeat' split at hr
      all_goals simp_all
  · intro data ct url h
    cases hr : validate_pdf_content data ct url with
    | mk v reason =>
      refine hrej data ct url _ hr ?_
      intro hacc
      unfold validate_pdf_content at hr
      repeat' split at hr
      all_goals simp_all
  · intro data ct url h1 h2 h3 h4 h5 h6
    unfold validate_pdf_content
    rw [if_neg (by omega)]
    rw [if_neg ?hct]
    case hct =>
      rintro ⟨hne, hnp, hno⟩
      rcases h2 with h | h | h
      · exact hne h
      · exact hnp h
      · exact hno h
    rw [if_neg (by simp [h3])]
    rw [if_neg (by simp [h4])]
    rw [if_neg h5]
    rw [if_neg (by simp [h6])]

/-- Witness for C8 at concrete buffers: a 9-byte magic-bytes buffer is too
small, an `<html`-bearing buffer and a trailer-less buffer are rejected, an
undersized nature.com response is rejected, and a well-formed 1024-byte
buffer with a PDF content type is accepted. -/
theorem validate_pdf_content_spec_witness :
    validate_pdf_content smallPdf "" "http://x" = ⟨false, .tooSmall⟩ ∧
    (validate_pdf_content htmlPdf "" "http://x").is_valid = false ∧
    (validate_pdf_content goodPdf "" "https://www.nature.com/a").is_valid = false ∧
    (validate_pdf_content noEofPdf "" "http://x").is_valid = false ∧
    validate_pdf_content goodPdf "application/pdf" "http://x" = ⟨true, .accepted⟩ :=
  ⟨validate_pdf_content_spec.1 smallPdf "" "http://x" (by decide),
   validate_pdf_content_spec.2.1 htmlPdf "" "http://x" (by decide),
   validate_pdf_content_spec.2.2.1 goodPdf "" "https://www.nature.com/a"
     (by decide) (by decide),
   validate_pdf_content_spec.2.2.2.1 noEofPdf "" "http://x" (by decide),
   validate_pdf_content_spec.2.2.2.2 goodPdf "application/pdf" "http://x"
     (by decide) (Or.inr (Or.inl (by decide))) (by decide) (by decide)
     (by decide) (by decide)⟩

/-! ## Loop lemmas for `fetch_pdf` -/

theorem fetch_pdf_loop_all_none (net : String → Option StratResult)
    (k t : String) (so : List String) :
    ∀ l acc, (∀ s ∈ l, strategyFor net s = none) →
      fetch_pdf_loop net k t so l acc =
        .fail "Could not find PDF from any source" k so acc := by
  intro l
  induction l with
  | nil => intro acc _; rfl
  | cons a rest ih =>
    intro acc h
    unfold fetch_pdf_loop
    rw [h a (List.mem_cons_self a rest)]
    exact ih acc (fun s hs => h s (List.mem_cons_of_mem a hs))

theorem fetch_pdf_loop_skip (net : String → Option StratResult)
    (k t : String) (so l2 : List String) :
    ∀ l1 acc, (∀ s ∈ l1, strategyFor net s = none) →
      fetch_pdf_loop net k t so (l1 ++ l2) acc = fetch_pdf_loop net k t so l2 acc := by
  intro l1
  induction l1 with
  | nil => intro acc _; rfl
  | cons a rest ih =>
    intro acc h
    rw [List.cons_append]
    simp only [fetch_pdf_loop]
    rw [h a (List.mem_cons_self a rest)]
    exact ih acc (fun s hs => h s (List.mem_cons_of_mem a hs))

/-! ## Claim C3: `fetch_pdf` never consults the validator -/

/-- Counterexample to C3: with the arXiv strategy observing a 200 response
whose 9-byte body starts with `%PDF`, `fetch_pdf` returns that body as a
successful acquisition even though the six-rule validator rejects it as too
small.  `_validate_pdf_content` has no caller anywhere in the repository. -/
theorem fetch_pdf_returns_validator_rejected :
    fetch_pdf tinyNet arxivInfo "auto" =
      .ok "arXiv" smallPdf.length "Paper" smallPdf ∧
    (validate_pdf_content smallPdf ""
      "https://arxiv.org/pdf/2301.00001.pdf").is_valid = false := by
  constructor
  · decide
  · decide

/-- Amended C3: `fetch_pdf` accepts a candidate on each strategy's own
check alone — for arXiv, HTTP 200 plus the `%PDF` magic-byte test — and
returns it immediately as success; the six-rule `_validate_pdf_content`
is never invoked, so no validator hypothesis is needed. -/
theorem fetch_pdf_skips_validator (net : String → Option StratResult)
    (info : ItemInfo) (resp : HttpResp) (a : String)
    (hnet : net "arxiv" = fetch_from_arxiv info resp)
    (haid : info.arxiv_id = some a)
    (hstatus : resp.status = 200)
    (hmagic : leadsWith pdfMagic resp.content = true) :
    fetch_pdf net info "arxiv" =
      .ok "arXiv" resp.content.length info.title resp.content := by
  have hstrat : strategyFor net "arxiv" = some
      ⟨true, "arXiv", resp.content, "https://arxiv.org/pdf/" ++ a ++ ".pdf"⟩ := by
    simp [strategyFor, hnet, fetch_from_arxiv, haid, hstatus, hmagic]
  have hord : get_source_order "arxiv" =
      "arxiv" :: all_sources.filter (fun x => x ≠ "arxiv") := by decide
  unfold fetch_pdf
  rw [hord]
  unfold fetch_pdf_loop
  rw [hstrat]
  rfl

/-- Witness for the amended C3 at the concrete undersized response. -/
theorem fetch_pdf_skips_validator_witness :
    fetch_pdf tinyNet arxivInfo "arxiv" =
      .ok "arXiv" smallPdf.length "Paper" smallPdf :=
  fetch_pdf_skips_validator tinyNet arxivInfo ⟨200, smallPdf⟩ "2301.00001"
    (by decide) (by decide) (by decide) (by decide)

/-! ## Claim C5: failure diagnostics of `fetch_pdf` -/

/-- Counterexample to C5: when the first two providers find nothing and the
third succeeds, the success dictionary carries no record of the failed
attempts at all (`reportedAttempts = none`, not two entries); and when
every provider is exhausted the failure dictionary lists the tried sources
but its `attempts` list is empty — no per-provider diagnostic entry exists,
because strategies signal failure by returning `None`. -/
theorem fetch_pdf_diagnostics_counterexample :
    fetch_pdf thirdNet plainInfo "auto" =
      .ok "Unpaywall" goodPdf.length "Other" goodPdf ∧
    reportedAttempts (fetch_pdf thirdNet plainInfo "auto") = none ∧
    fetch_pdf (fun _ => none) plainInfo "auto" =
      .fail "Could not find PDF from any source" "KEY2" all_sources [] := by
  refine ⟨?_, ?_, ?_⟩
  · decide
  · decide
  · decide

/-- Amended C5: on exhaustion the failure dictionary carries the full
ordered tried-source list but an `attempts` list holding only the
non-`None` strategy results — empty when every strategy returns `None`, as
all strategies in the source do on failure; and when a later provider
succeeds after earlier ones fail, the success dictionary is returned bare,
with no diagnostics of the earlier failures. -/
theorem fetch_pdf_diagnostics_spec (net : String → Option StratResult)
    (info : ItemInfo) (source : String) :
    ((∀ s, net s = none) →
      fetch_pdf net info source =
        .fail "Could not find PDF from any source" info.key
          (get_source_order source) []) ∧
    (∀ l1 s2 rest r, get_source_order source = l1 ++ s2 :: rest →
      (∀ s ∈ l1, strategyFor net s = none) →
      strategyFor net s2 = some r → r.success = true →
      fetch_pdf net info source =
        .ok r.source r.content.length info.title r.content) := by
  constructor
  · intro h
    unfold fetch_pdf
    apply fetch_pdf_loop_all_none
    intro s _
    unfold strategyFor
    split
    · exact h s
    · rfl
  · intro l1 s2 rest r hord h1 h2 hr
    unfold fetch_pdf
    rw [hord, fetch_pdf_loop_skip net info.key info.title _ _ _ _ h1]
    unfold fetch_pdf_loop
    rw [h2]
    simp [hr]

/-- Witness for the amended C5: two silent failures followed by a success
yield the bare success dictionary. -/
theorem fetch_pdf_diagnostics_spec_witness :
    fetch_pdf thirdNet plainInfo "auto" =
      .ok "Unpaywall" goodPdf.length "Other" goodPdf :=
  (fetch_pdf_diagnostics_spec thirdNet plainInfo "auto").2
    ["arxiv", "mdpi"] "open_access"
    ["scihub", "annas_archive", "libgen", "publisher"]
    ⟨true, "Unpaywall", goodPdf, "http://oa"⟩
    (by decide) (by decide) (by decide) (by decide)

/-! ## Claim C4: `validate_and_update_item` -/

theorem vuUpdates_chars (diffs : List DiffEntry) (a : AMeta) :
    (∀ p ∈ vuUpdates diffs a,
      p ∈ ([("title", a.title), ("abstractNote", a.abstract),
            ("date", a.date)] : List (String × String))) ∧
    (("title", a.title) ∈ vuUpdates diffs a ↔
      diffs.any (fun d => d.field = "title") = true) ∧
    (("abstractNote", a.abstract) ∈ vuUpdates diffs a ↔
      diffs.any (fun d => d.field = "abstract") = true) ∧
    (("date", a.date) ∈ vuUpdates diffs a ↔
      diffs.any (fun d => d.field = "date") = true) ∧
    (∀ p ∈ vuUpdates diffs a, p.1 ≠ "authors" ∧ p.1 ≠ "DOI") := by
  unfold vuUpdates
  by_cases h1 : diffs.any (fun d => d.field = "title") = true <;>
    by_cases h2 : diffs.any (fun d => d.field = "abstract") = true <;>
      by_cases h3 : diffs.any (fun d => d.field = "date") = true <;>
        simp [h1, h2, h3]

/-- Counterexample to C4: two records that agree on title, abstract, date
and authors but carry different non-empty DOIs produce exactly one diff
entry (the DOI), yet `validate_and_update_item` with `apply_updates = true`
pushes nothing into the store — it only ever assembles title, abstract and
date updates — and does not report the item as consistent either. -/
theorem validate_and_update_doi_not_pushed :
    compare_metadata doiOnlyZ doiOnlyA = [⟨"doi", "10.1000/a", "10.48550/b"⟩] ∧
    (validate_and_update_item exDb "ABC123" doiOnlyZ doiOnlyA true).updates_applied
      = none ∧
    (validate_and_update_item exDb "ABC123" doiOnlyZ doiOnlyA true).db = exDb ∧
    (validate_and_update_item exDb "ABC123" doiOnlyZ doiOnlyA true).consistent
      = false := by
  refine ⟨?_, ?_, ?_, ?_⟩ <;> decide

/-- Amended C4: with an empty diff the call reports the item as already
consistent and performs no store update; when `apply_updates` is set, the
pushed map contains exactly the diffed fields among title, abstract and
date, each carrying the arXiv value as the new truth; authors and DOI are
never auto-applied; and the store is updated through `update_item` exactly
with that map. -/
theorem validate_and_update_item_spec (db : DB) (key : String) (z : ZMeta)
    (a : AMeta) (applyUpdates : Bool) :
    (compare_metadata z a = [] →
      validate_and_update_item db key z a applyUpdates = ⟨true, none, db⟩) ∧
    (∀ u, (validate_and_update_item db key z a applyUpdates).updates_applied
        = some u →
      applyUpdates = true ∧
      (∀ p ∈ u, p ∈ ([("title", a.title), ("abstractNote", a.abstract),
        ("date", a.date)] : List (String × String))) ∧
      (("title", a.title) ∈ u ↔
        (compare_metadata z a).any (fun d => d.field = "title") = true) ∧
      (("abstractNote", a.abstract) ∈ u ↔
        (compare_metadata z a).any (fun d => d.field = "abstract") = true) ∧
      (("date", a.date) ∈ u ↔
        (compare_metadata z a).any (fun d => d.field = "date") = true) ∧
      (∀ p ∈ u, p.1 ≠ "authors" ∧ p.1 ≠ "DOI") ∧
      (validate_and_update_item db key z a applyUpdates).db =
        (update_item db key u).2) ∧
    ((validate_and_update_item db key z a applyUpdates).updates_applied = none →
      (validate_and_update_item db key z a applyUpdates).db = db) := by
  by_cases hd : compare_metadata z a = []
  · have hv : validate_and_update_item db key z a applyUpdates = ⟨true, none, db⟩ := by
      unfold validate_and_update_item
      rw [if_pos hd]
    refine ⟨fun _ => hv, ?_, fun _ => by rw [hv]⟩
    intro u hu
    rw [hv] at hu
    simp at hu
  · by_cases hap : applyUpdates = true
    · by_cases hup : vuUpdates (compare_metadata z a) a = []
      · have hv : validate_and_update_item db key z a applyUpdates =
            ⟨false, none, db⟩ := by
          unfold validate_and_update_item
          rw [if_neg hd, if_pos hap, if_neg (not_not.mpr hup)]
        refine ⟨fun h => absurd h hd, ?_, fun _ => by rw [hv]⟩
        intro u hu
        rw [hv] at hu
        simp at hu
      · have hv : validate_and_update_item db key z a applyUpdates =
            ⟨false, some (vuUpdates (compare_metadata z a) a),
              (update_item db key (vuUpdates (compare_metadata z a) a)).2⟩ := by
          unfold validate_and_update_item
          rw [if_neg hd, if_pos hap, if_pos hup]
        refine ⟨fun h => absurd h hd, ?_, ?_⟩
        · intro u hu
          rw [hv] at hu
          have hu2 : vuUpdates (compare_metadata z a) a = u := Option.some.inj hu
          subst hu2
          have hc := vuUpdates_chars (compare_metadata z a) a
          exact ⟨hap, hc.1, hc.2.1, hc.2.2.1, hc.2.2.2.1, hc.2.2.2.2,
            by rw [hv]⟩
        · intro hn
          rw [hv] at hn
          simp at hn
    · have hv : validate_and_update_item db key z a applyUpdates =
          ⟨false, none, db⟩ := by
        unfold validate_and_update_item
        rw [if_neg hd, if_neg hap]
      refine ⟨fun h => absurd h hd, ?_, fun _ => by rw [hv]⟩
      intro u hu
      rw [hv] at hu
      simp at hu

/-- Witness for the amended C4: a pure title diff pushes exactly the arXiv
title through `update_item`. -/
theorem validate_and_update_item_spec_witness :
    compare_metadata titleZ2 titleA2 ≠ [] ∧
    (validate_and_update_item exDb "ABC123" titleZ2 titleA2 true).db =
      (update_item exDb "ABC123" [("title", "New Title")]).2 :=
  ⟨by decide,
   ((validate_and_update_item_spec exDb "ABC123" titleZ2 titleA2 true).2.1
     [("title", "New Title")] (by decide)).2.2.2.2.2.2⟩

/-! ## Max-fold lemmas (the `MAX(id)+1` allocation pattern) -/

theorem foldl_max_init_le {α : Type} (f : α → Nat) :
    ∀ (l : List α) (acc : Nat), acc ≤ l.foldl (fun m r => max m (f r)) acc := by
  intro l
  induction l with
  | nil => intro acc; exact Nat.le_refl acc
  | cons a t ih =>
    intro acc
    exact Nat.le_trans (Nat.le_max_left acc (f a)) (ih (max acc (f a)))

theorem foldl_max_mem_le {α : Type} (f : α → Nat) :
    ∀ (l : List α) (acc : Nat) (x : α), x ∈ l →
      f x ≤ l.foldl (fun m r => max m (f r)) acc := by
  intro l
  induction l with
  | nil => intro acc x hx; simp at hx
  | cons a t ih =>
    intro acc x hx
    rcases List.mem_cons.mp hx with rfl | hx
    · exact Nat.le_trans (Nat.le_max_right acc (f x)) (foldl_max_init_le f t _)
    · exact ih _ x hx

theorem maxTagID_lt_fresh (tags : List TagRow) (r : TagRow) (h : r ∈ tags) :
    r.tagID ≤ maxTagID tags :=
  foldl_max_mem_le (fun t => t.tagID) tags 0 r h

theorem maxValueID_mem_le (vs : List ValueRow) (r : ValueRow) (h : r ∈ vs) :
    r.valueID ≤ maxValueID vs :=
  foldl_max_mem_le (fun t => t.valueID) vs 0 r h

/-- In a table with pairwise-distinct tag ids, looking a member row's id up
returns exactly that row. -/
theorem find_tag_of_nodup :
    ∀ (tags : List TagRow), (tags.map (fun r => r.tagID)).Nodup →
      ∀ r ∈ tags, tags.find? (fun x => x.tagID = r.tagID) = some r := by
  intro tags
  induction tags with
  | nil => intro _ r hr; simp at hr
  | cons a t ih =>
    intro hnd r hr
    have hnd2 : (∀ x ∈ t, ¬ x.tagID = a.tagID) ∧
        (t.map (fun r => r.tagID)).Nodup := by
      simpa [List.nodup_cons] using hnd
    rcases List.mem_cons.mp hr with rfl | hr
    · simp [List.find?]
    · have hpb : (decide (a.tagID = r.tagID)) = false := by
        simp only [decide_eq_false_iff_not]
        intro heq
        exact hnd2.1 r hr heq.symm
      simp only [List.find?, hpb]
      exact ih hnd2.2 r hr

/-! ## Claim C7: `update_item_tags` -/

/-- Behaviour of the `for tag in tags` fold of `update_item_tags`: tags
grow by fresh-id rows named by requested names, item links grow by one row
per requested name (in order, resolving to that name through the final
tags table), and all other tables are untouched. -/
theorem addTags_fold (i : Nat) :
    ∀ (ts : List String) (db : DB), (db.tags.map (fun r => r.tagID)).Nodup →
    ∃ ext newRows,
      (ts.foldl (addTagStep i) db).tags = db.tags ++ ext ∧
      (ts.foldl (addTagStep i) db).itemTags = db.itemTags ++ newRows ∧
      (((ts.foldl (addTagStep i) db).tags.map (fun r => r.tagID)).Nodup) ∧
      (∀ r ∈ newRows, r.itemID = i) ∧
      (newRows.map (fun r => tagName (ts.foldl (addTagStep i) db).tags r.tagID)
        = ts.map some) ∧
      (∀ r ∈ ext, maxTagID db.tags < r.tagID ∧ r.name ∈ ts) ∧
      (ts.foldl (addTagStep i) db).items = db.items := by
  intro ts
  induction ts with
  | nil =>
    intro db hnd
    exact ⟨[], [], by simp, by simp, hnd, by simp, by simp, by simp, rfl⟩
  | cons n rest ih =>
    intro db hnd
    rw [List.foldl_cons]
    cases hfind : db.tags.find? (fun r => r.name = n) with
    | some r =>
      have hstep : addTagStep i db n =
          { db with itemTags := db.itemTags ++ [(⟨i, r.tagID, 0⟩ : ItemTagRow)] } := by
        unfold addTagStep getOrCreateTag
        rw [hfind]
      rw [hstep]
      have hnd1 : (({ db with itemTags :=
          db.itemTags ++ [(⟨i, r.tagID, 0⟩ : ItemTagRow)] } : DB).tags.map
          (fun r => r.tagID)).Nodup := hnd
      obtain ⟨ext, rows, htags, hit, hndf, hrowid, hmap, hext, hitems⟩ :=
        ih { db with itemTags := db.itemTags ++ [(⟨i, r.tagID, 0⟩ : ItemTagRow)] } hnd1
      refine ⟨ext, ⟨i, r.tagID, 0⟩ :: rows, ?_, ?_, hndf, ?_, ?_, ?_, hitems⟩
      · exact htags
      · rw [hit]
        simp
      · intro x hx
        rcases List.mem_cons.mp hx with rfl | hx
        · rfl
        · exact hrowid x hx
      · have hrn : r.name = n := by
          have := List.find?_some hfind
          simpa using this
        have hrmem0 : r ∈ db.tags := List.mem_of_find?_eq_some hfind
        have hrmem : r ∈ (rest.foldl (addTagStep i)
            ({ db with itemTags :=
              db.itemTags ++ [(⟨i, r.tagID, 0⟩ : ItemTagRow)] } : DB)).tags := by
          rw [htags]
          exact List.mem_append_left _ hrmem0
        have hres : tagName (rest.foldl (addTagStep i)
            ({ db with itemTags :=
              db.itemTags ++ [(⟨i, r.tagID, 0⟩ : ItemTagRow)] } : DB)).tags
            r.tagID = some n := by
          unfold tagName
          rw [find_tag_of_nodup _ hndf r hrmem]
          simp [hrn]
        simp only [List.map_cons, hres, hmap]
      · intro x hx
        obtain ⟨h1, h2⟩ := hext x hx
        exact ⟨h1, List.mem_cons_of_mem n h2⟩
    | none =>
      have hstep : addTagStep i db n =
          { db with
            tags := db.tags ++ [(⟨maxTagID db.tags + 1, n⟩ : TagRow)],
            itemTags := db.itemTags ++
              [(⟨i, maxTagID db.tags + 1, 0⟩ : ItemTagRow)] } := by
        unfold addTagStep getOrCreateTag
        rw [hfind]
      rw [hstep]
      have hnd1 : ((({ db with
          tags := db.tags ++ [(⟨maxTagID db.tags + 1, n⟩ : TagRow)],
          itemTags := db.itemTags ++
            [(⟨i, maxTagID db.tags + 1, 0⟩ : ItemTagRow)] } : DB)).tags.map
          (fun r => r.tagID)).Nodup := by
        show ((db.tags ++ [(⟨maxTagID db.tags + 1, n⟩ : TagRow)]).map
          (fun r => r.tagID)).Nodup
        rw [List.map_append, List.nodup_append]
        refine ⟨hnd, List.nodup_singleton _, ?_⟩
        intro x hx hx2
        simp at hx2
        obtain ⟨y, hy, hyeq⟩ := List.mem_map.mp hx
        have := maxTagID_lt_fresh db.tags y hy
        omega
      obtain ⟨ext, rows, htags, hit, hndf, hrowid, hmap, hext, hitems⟩ :=
        ih _ hnd1
      refine ⟨⟨maxTagID db.tags + 1, n⟩ :: ext,
        ⟨i, maxTagID db.tags + 1, 0⟩ :: rows, ?_, ?_, hndf, ?_, ?_, ?_, hitems⟩
      · rw [htags]
        simp
      · rw [hit]
        simp
      · intro x hx
        rcases List.mem_cons.mp hx with rfl | hx
        · rfl
        · exact hrowid x hx
      · have hrmem : (⟨maxTagID db.tags + 1, n⟩ : TagRow) ∈ (rest.foldl (addTagStep i)
            ({ db with
              tags := db.tags ++ [(⟨maxTagID db.tags + 1, n⟩ : TagRow)],
              itemTags := db.itemTags ++
                [(⟨i, maxTagID db.tags + 1, 0⟩ : ItemTagRow)] } : DB)).tags := by
          rw [htags]
          exact List.mem_append_left _
            (List.mem_append_right _ (List.mem_singleton_self _))
        have hres : tagName (rest.foldl (addTagStep i)
            ({ db with
              tags := db.tags ++ [(⟨maxTagID db.tags + 1, n⟩ : TagRow)],
              itemTags := db.itemTags ++
                [(⟨i, maxTagID db.tags + 1, 0⟩ : ItemTagRow)] } : DB)).tags
            (maxTagID db.tags + 1) = some n := by
          unfold tagName
          rw [find_tag_of_nodup _ hndf _ hrmem]
          rfl
        simp only [List.map_cons, hres, hmap]
      · intro x hx
        rcases List.mem_cons.mp hx with rfl | hx
        · exact ⟨Nat.lt_succ_self _, List.mem_cons_self n rest⟩
        · obtain ⟨h1, h2⟩ := hext x hx
          have hmono : maxTagID db.tags ≤
              maxTagID (db.tags ++ [(⟨maxTagID db.tags + 1, n⟩ : TagRow)]) := by
            unfold maxTagID
            rw [List.foldl_append]
            exact foldl_max_init_le _ _ _
          exact ⟨Nat.lt_of_le_of_lt hmono h1, List.mem_cons_of_mem n h2⟩

/-- Claim C7: `update_item_tags` is a full replace — existing ItemTag rows
of the item are deleted, one row is inserted per requested name (in order,
resolving through the tags table to exactly the requested names, allocating
fresh ids above `MAX(tagID)` for unknown names), rows of other items are
untouched, and a subsequent call with `[]` leaves zero ItemTag rows. -/
theorem update_item_tags_spec (db : DB) (key : String) (ts : List String) (i : Nat)
    (h : findItem db key = some i)
    (hids : (db.tags.map (fun r => r.tagID)).Nodup) :
    (update_item_tags db key ts).1 = true ∧
    ((update_item_tags db key ts).2.itemTags.filter (fun r => ¬ r.itemID = i)) =
      db.itemTags.filter (fun r => ¬ r.itemID = i) ∧
    (((update_item_tags db key ts).2.itemTags.filter (fun r => r.itemID = i)).map
      (fun r => tagName (update_item_tags db key ts).2.tags r.tagID)) =
      ts.map some ∧
    (∀ r ∈ (update_item_tags db key ts).2.tags, r ∈ db.tags ∨
      (maxTagID db.tags < r.tagID ∧ r.name ∈ ts)) ∧
    ((update_item_tags (update_item_tags db key ts).2 key []).2.itemTags.filter
      (fun r => r.itemID = i)) = [] := by
  have hres : update_item_tags db key ts =
      (true, ts.foldl (addTagStep i)
        { db with itemTags := db.itemTags.filter (fun r => ¬ r.itemID = i) }) := by
    unfold update_item_tags
    rw [h]
  obtain ⟨ext, rows, htags, hit, hndf, hrowid, hmap, hext, hitems⟩ :=
    addTags_fold i ts
      { db with itemTags := db.itemTags.filter (fun r => ¬ r.itemID = i) } hids
  have hrowsF : rows.filter (fun r => r.itemID = i) = rows := by
    rw [List.filter_eq_self]
    intro a ha
    simp [hrowid a ha]
  have hrowsNF : rows.filter (fun r => ¬ r.itemID = i) = [] := by
    rw [List.filter_eq_nil_iff]
    intro a ha
    simp [hrowid a ha]
  have hbaseF : (db.itemTags.filter (fun r => ¬ r.itemID = i)).filter
      (fun r => r.itemID = i) = [] := by
    rw [List.filter_eq_nil_iff]
    intro a ha
    have := List.of_mem_filter ha
    simp at this
    simp [this]
  have hbaseNF : (db.itemTags.filter (fun r => ¬ r.itemID = i)).filter
      (fun r => ¬ r.itemID = i) = db.itemTags.filter (fun r => ¬ r.itemID = i) := by
    rw [List.filter_eq_self]
    intro a ha
    exact (List.mem_filter.mp ha).2
  refine ⟨?_, ?_, ?_, ?_, ?_⟩
  · rw [hres]
  · rw [hres]
    show ((ts.foldl (addTagStep i)
      { db with itemTags := db.itemTags.filter (fun r => ¬ r.itemID = i) }).itemTags.filter
        (fun r => ¬ r.itemID = i)) = db.itemTags.filter (fun r => ¬ r.itemID = i)
    rw [hit, List.filter_append, hrowsNF, hbaseNF]
    simp
  · rw [hres]
    show (((ts.foldl (addTagStep i)
      { db with itemTags := db.itemTags.filter (fun r => ¬ r.itemID = i) }).itemTags.filter
        (fun r => r.itemID = i)).map _) = ts.map some
    rw [hit, List.filter_append, hbaseF, hrowsF]
    simpa using hmap
  · rw [hres]
    intro r hr
    rw [htags] at hr
    rcases List.mem_append.mp hr with hr | hr
    · exact Or.inl hr
    · exact Or.inr (hext r hr)
  · rw [hres]
    have h2 : findItem (ts.foldl (addTagStep i)
        { db with itemTags := db.itemTags.filter (fun r => ¬ r.itemID = i) }) key =
        some i := by
      unfold findItem
      rw [hitems]
      exact h
    unfold update_item_tags
    rw [h2]
    simp only [List.foldl_nil]
    rw [List.filter_filter]
    rw [List.filter_eq_nil_iff]
    intro a ha
    simp

/-- Witness for C7 at the concrete store: one fresh tag name and one
existing name are set, then cleared. -/
theorem update_item_tags_spec_witness :
    (update_item_tags exDb "ABC123" ["alpha", "existing"]).1 = true ∧
    (((update_item_tags exDb "ABC123" ["alpha", "existing"]).2.itemTags.filter
      (fun r => r.itemID = 1)).map
      (fun r => tagName
        (update_item_tags exDb "ABC123" ["alpha", "existing"]).2.tags r.tagID)) =
      ["alpha", "existing"].map some ∧
    ((update_item_tags (update_item_tags exDb "ABC123"
        ["alpha", "existing"]).2 "ABC123" []).2.itemTags.filter
      (fun r => r.itemID = 1)) = [] := by
  have h := update_item_tags_spec exDb "ABC123" ["alpha", "existing"] 1
    (by decide) (by decide)
  exact ⟨h.1, h.2.2.1, h.2.2.2.2⟩

/-! ## Claim C6: write-trace lemmas on `itemDataValues` -/

theorem writeValue_vids (t : Nat) (v : String) (vs : List ValueRow) :
    (writeValue t v vs).map (fun r => r.valueID) = vs.map (fun r => r.valueID) := by
  unfold writeValue
  rw [List.map_map]
  apply List.map_congr_left
  intro r _
  by_cases h : r.valueID = t <;> simp [h]

theorem writeValue_collapse (t : Nat) (v1 v2 : String) (vs : List ValueRow) :
    writeValue t v2 (writeValue t v1 vs) = writeValue t v2 vs := by
  unfold writeValue
  rw [List.map_map]
  apply List.map_congr_left
  intro r _
  by_cases h : r.valueID = t <;> simp [h]

theorem writeValue_comm (t t2 : Nat) (v v2 : String) (vs : List ValueRow)
    (h : t2 ≠ t) :
    writeValue t2 v2 (writeValue t v vs) = writeValue t v (writeValue t2 v2 vs) := by
  unfold writeValue
  rw [List.map_map, List.map_map]
  apply List.map_congr_left
  intro r _
  by_cases h1 : r.valueID = t
  · by_cases h2 : r.valueID = t2
    · exact absurd (h2.symm.trans h1) h
    · have ht2 : ¬ t = t2 := fun he => h2 (h1.trans he)
      simp [h1, h2, ht2]
  · by_cases h2 : r.valueID = t2
    · simp [h1, h2, h]
    · simp [h1, h2]

theorem writeValue_rows (t : Nat) (v : String) (vs : List ValueRow) :
    ∀ r ∈ writeValue t v vs, r.valueID = t → r.value = v := by
  intro r hr ht
  unfold writeValue at hr
  obtain ⟨x, _, hxr⟩ := List.mem_map.mp hr
  by_cases h : x.valueID = t
  · rw [if_pos h] at hxr
    rw [← hxr]
  · rw [if_neg h] at hxr
    rw [← hxr] at ht
    exact absurd ht h

theorem writeValue_preserve (t t2 : Nat) (v v2 : String) (vs : List ValueRow)
    (hne : t2 ≠ t) (hall : ∀ r ∈ vs, r.valueID = t → r.value = v) :
    ∀ r ∈ writeValue t2 v2 vs, r.valueID = t → r.value = v := by
  intro r hr ht
  unfold writeValue at hr
  obtain ⟨x, hx, hxr⟩ := List.mem_map.mp hr
  by_cases h : x.valueID = t2
  · rw [if_pos h] at hxr
    rw [← hxr] at ht
    simp at ht
    exact absurd (h.symm.trans ht) hne
  · rw [if_neg h] at hxr
    exact hall r (hxr ▸ hx) ht

theorem writeValue_id_of (t : Nat) (v : String) (vs : List ValueRow)
    (hall : ∀ r ∈ vs, r.valueID = t → r.value = v) :
    writeValue t v vs = vs := by
  unfold writeValue
  have h : vs.map (fun r => if r.valueID = t then (⟨r.valueID, v⟩ : ValueRow) else r)
      = vs.map id := by
    apply List.map_congr_left
    intro r hr
    by_cases h : r.valueID = t
    · have hv := hall r hr h
      cases r
      simp_all
    · rw [if_neg h]
      rfl
  rw [h, List.map_id]

theorem applyOps_append (vs : List ValueRow) (a b : List DOp) :
    applyOps vs (a ++ b) = applyOps (applyOps vs a) b := by
  unfold applyOps
  rw [List.foldl_append]

theorem applyOp_proj (vs : List ValueRow) (o : DOp) :
    applyOp vs (projOp o) = writeValue (opTarget o) (opVal o) vs := by
  cases o <;> rfl

theorem opTarget_proj (o : DOp) : opTarget (projOp o) = opTarget o := by
  cases o <;> rfl

/-- Rows with a targeted id keep the last value written to that id, unless
some later operation targets the id again. -/
theorem t_preserve : ∀ (ops : List DOp) (vs : List ValueRow) (t : Nat) (v : String),
    (∀ r ∈ vs, r.valueID = t → r.value = v) →
    (∀ r ∈ applyOps vs ops, r.valueID = t → r.value = v) ∨
      t ∈ ops.map opTarget := by
  intro ops
  induction ops with
  | nil => intro vs t v h; exact Or.inl h
  | cons o rest ih =>
    intro vs t v h
    by_cases ht : opTarget o = t
    · exact Or.inr (List.mem_cons.mpr (Or.inl ht.symm))
    · have hstep : ∀ r ∈ applyOp vs o, r.valueID = t → r.value = v := by
        cases o with
        | wr t2 v2 =>
          exact writeValue_preserve t t2 v v2 vs ht h
        | ins t2 v2 =>
          intro r hr hrt
          rcases List.mem_append.mp hr with hr | hr
          · exact h r hr hrt
          · have : r = ⟨t2, v2⟩ := by simpa using hr
            rw [this] at hrt
            exact absurd hrt ht
      have happ : applyOps vs (o :: rest) = applyOps (applyOp vs o) rest := rfl
      rw [happ]
      rcases ih (applyOp vs o) t v hstep with hl | hr
      · exact Or.inl hl
      · exact Or.inr (List.mem_cons.mpr (Or.inr hr))

/-- A stale write is absorbed by a replayed write list: either the rows
already carry the written value, or a later write overwrites the target. -/
theorem aw_absorb : ∀ (ops : List DOp) (vs : List ValueRow) (t : Nat) (v : String),
    ((∀ r ∈ vs, r.valueID = t → r.value = v) ∨ t ∈ ops.map opTarget) →
    applyOps (writeValue t v vs) (ops.map projOp) = applyOps vs (ops.map projOp) := by
  intro ops
  induction ops with
  | nil =>
    intro vs t v h
    rcases h with h | h
    · exact writeValue_id_of t v vs h
    · simp at h
  | cons o rest ih =>
    intro vs t v h
    rw [List.map_cons]
    have hl : applyOps (writeValue t v vs) (projOp o :: rest.map projOp) =
        applyOps (applyOp (writeValue t v vs) (projOp o)) (rest.map projOp) := rfl
    have hr : applyOps vs (projOp o :: rest.map projOp) =
        applyOps (applyOp vs (projOp o)) (rest.map projOp) := rfl
    rw [hl, hr, applyOp_proj, applyOp_proj]
    by_cases hto : opTarget o = t
    · rw [hto, writeValue_collapse]
    · rw [writeValue_comm t (opTarget o) v (opVal o) vs (fun he => hto he)]
      apply ih
      rcases h with h | h
      · exact Or.inl (writeValue_preserve t (opTarget o) v (opVal o) vs hto h)
      · rcases List.mem_cons.mp h with h | h
        · exact absurd h.symm hto
        · exact Or.inr h

/-- Replaying the write projection of a valid operation list over its own
result changes nothing. -/
theorem replay_core : ∀ (ops : List DOp) (vs : List ValueRow), OpsValid vs ops →
    applyOps (applyOps vs ops) (ops.map projOp) = applyOps vs ops := by
  intro ops
  induction ops with
  | nil => intro vs _; rfl
  | cons o rest ih =>
    intro vs hv
    have h1 : applyOps vs (o :: rest) = applyOps (applyOp vs o) rest := rfl
    have h2 : applyOps (applyOps (applyOp vs o) rest) (projOp o :: rest.map projOp) =
        applyOps (writeValue (opTarget o) (opVal o) (applyOps (applyOp vs o) rest))
          (rest.map projOp) := by
      rw [show applyOps (applyOps (applyOp vs o) rest) (projOp o :: rest.map projOp) =
        applyOps (applyOp (applyOps (applyOp vs o) rest) (projOp o))
          (rest.map projOp) from rfl, applyOp_proj]
    have hbase : ∀ r ∈ applyOp vs o, r.valueID = opTarget o → r.value = opVal o := by
      cases o with
      | wr t2 v2 => exact writeValue_rows t2 v2 vs
      | ins t2 v2 =>
        intro r hr hrt
        rcases List.mem_append.mp hr with hr | hr
        · exfalso
          have hfresh : t2 ∉ vs.map (fun r => r.valueID) := hv.1
          exact hfresh (List.mem_map.mpr ⟨r, hr, hrt⟩)
        · have : r = ⟨t2, v2⟩ := by simpa using hr
          rw [this]
          rfl
    have hvrest : OpsValid (applyOp vs o) rest := by
      cases o with
      | wr t2 v2 => exact hv
      | ins t2 v2 => exact hv.2
    rw [List.map_cons, h1, h2]
    rw [aw_absorb rest (applyOps (applyOp vs o) rest) (opTarget o) (opVal o)
      (t_preserve rest (applyOp vs o) (opTarget o) (opVal o) hbase)]
    exact ih (applyOp vs o) hvrest

/-! ## Claim C6: the three branches of one `update_item` loop iteration -/

/-- Case analysis of one loop iteration, with the discriminating lookups
recorded: the iteration is skipped, updates the first matching FieldValue
in place, or allocates a fresh id. -/
theorem step_cases (i : Nat) (db : DB) (p : String × String) :
    ((¬ p.1 ∈ updatable_fields ∨ findFieldID db.fields p.1 = none) ∧
      stepOps i db p = [] ∧ stepIDRows i db p = [] ∧
      updateFieldStep i db p = db) ∨
    (∃ fid r, p.1 ∈ updatable_fields ∧ findFieldID db.fields p.1 = some fid ∧
      db.itemData.find? (fun x => x.itemID = i ∧ x.fieldID = fid) = some r ∧
      stepOps i db p = [DOp.wr r.valueID p.2] ∧ stepIDRows i db p = [] ∧
      updateFieldStep i db p =
        { db with itemDataValues := writeValue r.valueID p.2 db.itemDataValues }) ∨
    (∃ fid, p.1 ∈ updatable_fields ∧ findFieldID db.fields p.1 = some fid ∧
      db.itemData.find? (fun x => x.itemID = i ∧ x.fieldID = fid) = none ∧
      stepOps i db p = [DOp.ins (maxValueID db.itemDataValues + 1) p.2] ∧
      stepIDRows i db p = [⟨i, fid, maxValueID db.itemDataValues + 1⟩] ∧
      updateFieldStep i db p = { db with
        itemDataValues := db.itemDataValues ++
          [⟨maxValueID db.itemDataValues + 1, p.2⟩],
        itemData := db.itemData ++
          [⟨i, fid, maxValueID db.itemDataValues + 1⟩] }) := by
  unfold stepOps stepIDRows updateFieldStep
  by_cases hm : p.1 ∈ updatable_fields
  · rw [if_pos hm, if_pos hm, if_pos hm]
    split
    next heq => exact Or.inl ⟨Or.inr heq, rfl, rfl, rfl⟩
    next fid heq =>
      split
      next r heq2 => exact Or.inr (Or.inl ⟨fid, r, hm, heq, heq2, rfl, rfl, rfl⟩)
      next heq2 => exact Or.inr (Or.inr ⟨fid, hm, heq, heq2, rfl, rfl, rfl⟩)
  · rw [if_neg hm, if_neg hm, if_neg hm]
    exact Or.inl ⟨Or.inl hm, rfl, rfl, rfl⟩

/-- One loop iteration leaves every table except `itemData` and
`itemDataValues` unchanged. -/
theorem step_others (i : Nat) (db : DB) (p : String × String) :
    (updateFieldStep i db p).fields = db.fields ∧
    (updateFieldStep i db p).items = db.items ∧
    (updateFieldStep i db p).tags = db.tags ∧
    (updateFieldStep i db p).itemTags = db.itemTags ∧
    (updateFieldStep i db p).itemCreators = db.itemCreators ∧
    (updateFieldStep i db p).collections = db.collections ∧
    (updateFieldStep i db p).collectionItems = db.collectionItems ∧
    (updateFieldStep i db p).itemAttachments = db.itemAttachments := by
  rcases step_cases i db p with ⟨_, _, _, hst⟩ | ⟨fid, r, _, _, _, _, _, hst⟩ |
    ⟨fid, _, _, _, _, _, hst⟩ <;>
    rw [hst] <;> exact ⟨rfl, rfl, rfl, rfl, rfl, rfl, rfl, rfl⟩

/-- `itemDataValues` after one iteration is the trace applied. -/
theorem step_vals (i : Nat) (db : DB) (p : String × String) :
    (updateFieldStep i db p).itemDataValues =
      applyOps db.itemDataValues (stepOps i db p) := by
  rcases step_cases i db p with ⟨_, hso, _, hst⟩ | ⟨fid, r, _, _, _, hso, _, hst⟩ |
    ⟨fid, _, _, _, hso, _, hst⟩ <;> rw [hst, hso] <;> rfl

/-- `itemData` after one iteration extends by the appended rows. -/
theorem step_idrows (i : Nat) (db : DB) (p : String × String) :
    (updateFieldStep i db p).itemData = db.itemData ++ stepIDRows i db p := by
  rcases step_cases i db p with ⟨_, _, hsr, hst⟩ | ⟨fid, r, _, _, _, _, hsr, hst⟩ |
    ⟨fid, _, _, _, _, hsr, hst⟩ <;> rw [hst, hsr] <;> simp

/-! ## Claim C6: whole-run lemmas -/

theorem run_others (i : Nat) : ∀ (l : List (String × String)) (db : DB),
    ((l.foldl (updateFieldStep i) db).fields = db.fields) ∧
    ((l.foldl (updateFieldStep i) db).items = db.items) ∧
    ((l.foldl (updateFieldStep i) db).tags = db.tags) ∧
    ((l.foldl (updateFieldStep i) db).itemTags = db.itemTags) ∧
    ((l.foldl (updateFieldStep i) db).itemCreators = db.itemCreators) ∧
    ((l.foldl (updateFieldStep i) db).collections = db.collections) ∧
    ((l.foldl (updateFieldStep i) db).collectionItems = db.collectionItems) ∧
    ((l.foldl (updateFieldStep i) db).itemAttachments = db.itemAttachments) := by
  intro l
  induction l with
  | nil => intro db; exact ⟨rfl, rfl, rfl, rfl, rfl, rfl, rfl, rfl⟩
  | cons p rest ih =>
    intro db
    rw [List.foldl_cons]
    obtain ⟨s1, s2, s3, s4, s5, s6, s7, s8⟩ := step_others i db p
    obtain ⟨r1, r2, r3, r4, r5, r6, r7, r8⟩ := ih (updateFieldStep i db p)
    exact ⟨r1.trans s1, r2.trans s2, r3.trans s3, r4.trans s4, r5.trans s5,
      r6.trans s6, r7.trans s7, r8.trans s8⟩

theorem run_vals (i : Nat) : ∀ (l : List (String × String)) (db : DB),
    (l.foldl (updateFieldStep i) db).itemDataValues =
      applyOps db.itemDataValues (runOps i db l) := by
  intro l
  induction l with
  | nil => intro db; rfl
  | cons p rest ih =>
    intro db
    rw [List.foldl_cons]
    show (rest.foldl (updateFieldStep i) (updateFieldStep i db p)).itemDataValues =
      applyOps db.itemDataValues (stepOps i db p ++ runOps i (updateFieldStep i db p) rest)
    rw [applyOps_append, ← step_vals]
    exact ih (updateFieldStep i db p)

theorem run_idrows (i : Nat) : ∀ (l : List (String × String)) (db : DB),
    (l.foldl (updateFieldStep i) db).itemData = db.itemData ++ runIDRows i db l := by
  intro l
  induction l with
  | nil => intro db; simp [runIDRows]
  | cons p rest ih =>
    intro db
    rw [List.foldl_cons]
    show (rest.foldl (updateFieldStep i) (updateFieldStep i db p)).itemData =
      db.itemData ++ (stepIDRows i db p ++ runIDRows i (updateFieldStep i db p) rest)
    rw [← List.append_assoc, ← step_idrows]
    exact ih (updateFieldStep i db p)

theorem run_valid (i : Nat) : ∀ (l : List (String × String)) (db : DB),
    OpsValid db.itemDataValues (runOps i db l) := by
  intro l
  induction l with
  | nil => intro db; trivial
  | cons p rest ih =>
    intro db
    show OpsValid db.itemDataValues
      (stepOps i db p ++ runOps i (updateFieldStep i db p) rest)
    rcases step_cases i db p with ⟨_, hso, _, hst⟩ | ⟨fid, r, _, _, _, hso, _, hst⟩ |
      ⟨fid, _, _, _, hso, _, hst⟩
    · rw [hso, hst]
      simpa using ih db
    · rw [hso]
      show OpsValid db.itemDataValues
        (DOp.wr r.valueID p.2 :: runOps i (updateFieldStep i db p) rest)
      show OpsValid (writeValue r.valueID p.2 db.itemDataValues)
        (runOps i (updateFieldStep i db p) rest)
      have hv := ih (updateFieldStep i db p)
      rw [hst] at hv ⊢
      exact hv
    · rw [hso]
      refine ⟨?_, ?_⟩
      · intro hmem
        obtain ⟨y, hy, hyeq⟩ := List.mem_map.mp hmem
        have := maxValueID_mem_le db.itemDataValues y hy
        omega
      · have hv := ih (updateFieldStep i db p)
        rw [hst] at hv ⊢
        exact hv

theorem runOps_cons (i : Nat) (db : DB) (p : String × String)
    (rest : List (String × String)) :
    runOps i db (p :: rest) =
      stepOps i db p ++ runOps i (updateFieldStep i db p) rest := rfl

theorem runIDRows_cons (i : Nat) (db : DB) (p : String × String)
    (rest : List (String × String)) :
    runIDRows i db (p :: rest) =
      stepIDRows i db p ++ runIDRows i (updateFieldStep i db p) rest := rfl

/-- Replay correspondence: rerunning an `update_item` loop on a store whose
`itemData` extends the original run's final `itemData` takes the update
branch everywhere — its trace is the write projection of the original
trace, and it appends no `itemData` row. -/
theorem run_replay (i : Nat) : ∀ (l : List (String × String)) (S T : DB)
    (E : List ItemDataRow),
    T.fields = S.fields →
    T.itemData = S.itemData ++ (runIDRows i S l ++ E) →
    runOps i T l = (runOps i S l).map projOp ∧ runIDRows i T l = [] := by
  intro l
  induction l with
  | nil => intro S T E hf hd; exact ⟨rfl, rfl⟩
  | cons p rest ih =>
    intro S T E hf hd
    rcases step_cases i S p with ⟨hdisc, hso, hsr, hst⟩ |
      ⟨fid, r, hm, hff, hfr, hso, hsr, hst⟩ |
      ⟨fid, hm, hff, hfr, hso, hsr, hst⟩
    · -- the S-side iteration is skipped; so is the T-side one
      have hTskip : stepOps i T p = [] ∧ stepIDRows i T p = [] ∧
          updateFieldStep i T p = T := by
        rcases step_cases i T p with ⟨_, h1, h2, h3⟩ |
          ⟨fid', r', hm', hff', _, _, _, _⟩ | ⟨fid', hm', hff', _, _, _, _⟩
        · exact ⟨h1, h2, h3⟩
        · rcases hdisc with hnm | hfn
          · exact absurd hm' hnm
          · rw [hf, hfn] at hff'
            exact Option.noConfusion hff'
        · rcases hdisc with hnm | hfn
          · exact absurd hm' hnm
          · rw [hf, hfn] at hff'
            exact Option.noConfusion hff'
      have hd' : T.itemData = S.itemData ++ (runIDRows i S rest ++ E) := by
        rw [hd, runIDRows_cons, hsr, hst]
        simp
      obtain ⟨hops, hrows⟩ := ih S T E hf hd'
      constructor
      · rw [runOps_cons, runOps_cons, hTskip.1, hTskip.2.2, hso, hst, hops]
        simp
      · rw [runIDRows_cons, hTskip.2.1, hTskip.2.2, hrows]
        simp
    · -- the S-side iteration updates row r in place; so does the T-side one
      have hffT : findFieldID T.fields p.1 = some fid := by rw [hf]; exact hff
      have hfindT : T.itemData.find?
          (fun x => x.itemID = i ∧ x.fieldID = fid) = some r := by
        rw [hd]
        exact findq_append_some _ _ hfr
      have hT : stepOps i T p = [DOp.wr r.valueID p.2] ∧
          stepIDRows i T p = [] ∧
          updateFieldStep i T p =
            { T with itemDataValues := writeValue r.valueID p.2 T.itemDataValues } := by
        rcases step_cases i T p with ⟨hdisc', _, _, _⟩ |
          ⟨fid', r', hm', hff', hfr', h1, h2, h3⟩ |
          ⟨fid', hm', hff', hfr', _, _, _⟩
        · rcases hdisc' with hnm | hfn
          · exact absurd hm hnm
          · exact Option.noConfusion (hffT.symm.trans hfn)
        · have hfid : fid' = fid := Option.some.inj (hff'.symm.trans hffT)
          subst hfid
          have hrr : r' = r := Option.some.inj (hfr'.symm.trans hfindT)
          subst hrr
          exact ⟨h1, h2, h3⟩
        · have hfid : fid' = fid := Option.some.inj (hff'.symm.trans hffT)
          subst hfid
          exact Option.noConfusion (hfr'.symm.trans hfindT)
      have hf' : (updateFieldStep i T p).fields = (updateFieldStep i S p).fields := by
        rw [hT.2.2, hst]
        exact hf
      have hd' : (updateFieldStep i T p).itemData =
          (updateFieldStep i S p).itemData ++
            (runIDRows i (updateFieldStep i S p) rest ++ E) := by
        rw [hT.2.2, hst]
        show T.itemData = S.itemData ++ _
        rw [hd, runIDRows_cons, hsr, hst]
        simp
      obtain ⟨hops, hrows⟩ := ih (updateFieldStep i S p) (updateFieldStep i T p) E hf' hd'
      constructor
      · rw [runOps_cons, runOps_cons, hT.1, hso, hops]
        simp [projOp]
      · rw [runIDRows_cons, hT.2.1, hrows]
        simp
    · -- the S-side iteration inserts a fresh row; the T-side one updates it
      have hffT : findFieldID T.fields p.1 = some fid := by rw [hf]; exact hff
      have hdT : T.itemData = S.itemData ++
          ((⟨i, fid, maxValueID S.itemDataValues + 1⟩ : ItemDataRow) ::
            (runIDRows i (updateFieldStep i S p) rest ++ E)) := by
        rw [hd, runIDRows_cons, hsr]
        simp
      have hfindT : T.itemData.find?
          (fun x => x.itemID = i ∧ x.fieldID = fid) =
          some ⟨i, fid, maxValueID S.itemDataValues + 1⟩ := by
        rw [hdT, findq_append_none _ _ hfr]
        apply List.find?_cons_of_pos
        simp
      have hT : stepOps i T p =
          [DOp.wr (maxValueID S.itemDataValues + 1) p.2] ∧
          stepIDRows i T p = [] ∧
          updateFieldStep i T p = { T with itemDataValues := writeValue (maxValueID S.itemDataValues + 1) p.2 T.itemDataValues } := by
        rcases step_cases i T p with ⟨hdisc', _, _, _⟩ |
          ⟨fid', r', hm', hff', hfr', h1, h2, h3⟩ |
          ⟨fid', hm', hff', hfr', _, _, _⟩
        · rcases hdisc' with hnm | hfn
          · exact absurd hm hnm
          · exact Option.noConfusion (hffT.symm.trans hfn)
        · have hfid : fid' = fid := Option.some.inj (hff'.symm.trans hffT)
          rw [hfid] at hfr'
          have hrr : r' = ⟨i, fid, maxValueID S.itemDataValues + 1⟩ :=
            Option.some.inj (hfr'.symm.trans hfindT)
          rw [hrr] at h1 h3
          exact ⟨h1, h2, h3⟩
        · have hfid : fid' = fid := Option.some.inj (hff'.symm.trans hffT)
          rw [hfid] at hfr'
          exact Option.noConfusion (hfr'.symm.trans hfindT)
      have hf' : (updateFieldStep i T p).fields = (updateFieldStep i S p).fields := by
        rw [hT.2.2, hst]
        exact hf
      have hd' : (updateFieldStep i T p).itemData =
          (updateFieldStep i S p).itemData ++
            (runIDRows i (updateFieldStep i S p) rest ++ E) := by
        rw [hT.2.2]
        show T.itemData = _
        rw [hdT, hst]
        simp
      obtain ⟨hops, hrows⟩ := ih (updateFieldStep i S p) (updateFieldStep i T p) E hf' hd'
      constructor
      · rw [runOps_cons, runOps_cons, hT.1, hso, hops]
        simp [projOp]
      · rw [runIDRows_cons, hT.2.1, hrows]
        simp

/-- Rerunning the whole `update_item` loop on its own result is the
identity on the store. -/
theorem run_idempotent (i : Nat) (l : List (String × String)) (db : DB) :
    l.foldl (updateFieldStep i) (l.foldl (updateFieldStep i) db) =
      l.foldl (updateFieldStep i) db := by
  obtain ⟨c1, c2, c3, c4, c5, c6, c7, c8⟩ := run_others i l db
  obtain ⟨d1, d2, d3, d4, d5, d6, d7, d8⟩ :=
    run_others i l (l.foldl (updateFieldStep i) db)
  obtain ⟨hops, hrows⟩ := run_replay i l db (l.foldl (updateFieldStep i) db) []
    c1 (by rw [run_idrows i l db]; simp)
  apply DB.ext
  · exact d2
  · rw [run_idrows i l (l.foldl (updateFieldStep i) db), hrows]
    simp
  · rw [run_vals i l (l.foldl (updateFieldStep i) db), hops, run_vals i l db]
    exact replay_core (runOps i db l) db.itemDataValues (run_valid i l db)
  · exact d1
  · exact d3
  · exact d4
  · exact d5
  · exact d6
  · exact d7
  · exact d8

/-- Claim C6: `update_item` is idempotent — calling it twice with the same
update map leaves exactly the same store as calling it once, hence the same
stored field values and no duplicate FieldValue rows.  Each loop iteration
is an upsert: an existing `(itemID, fieldID)` link has its FieldValue row
overwritten in place, otherwise one fresh FieldValue plus ItemField pair is
allocated and linked. -/
theorem update_item_idempotent (db : DB) (key : String)
    (updates : List (String × String)) :
    (update_item (update_item db key updates).2 key updates).2 =
      (update_item db key updates).2 := by
  cases h : findItem db key with
  | none =>
    have h1 : update_item db key updates = (false, db) := by
      unfold update_item
      rw [h]
    rw [h1]
    show (update_item db key updates).2 = db
    rw [h1]
  | some i =>
    have h1 : update_item db key updates =
        (updates.any (fieldCounted db), updates.foldl (updateFieldStep i) db) := by
      unfold update_item
      rw [h]
    have h2 : findItem (updates.foldl (updateFieldStep i) db) key = some i := by
      unfold findItem
      rw [(run_others i updates db).2.1]
      exact h
    have h3 : update_item (updates.foldl (updateFieldStep i) db) key updates =
        (updates.any (fieldCounted (updates.foldl (updateFieldStep i) db)),
          updates.foldl (updateFieldStep i) (updates.foldl (updateFieldStep i) db)) := by
      unfold update_item
      rw [h2]
    rw [h1]
    show (update_item (updates.foldl (updateFieldStep i) db) key updates).2 =
      updates.foldl (updateFieldStep i) db
    rw [h3]
    show updates.foldl (updateFieldStep i) (updates.foldl (updateFieldStep i) db) =
      updates.foldl (updateFieldStep i) db
    exact run_idempotent i updates db

end ZotLink
